import Mathlib

/- Verification of the pattern-detection core of the pattern-backend
   repository (src/core/pattern_recognition.py).

   Modelling conventions for the shallow embedding:
   * Python floats are modelled as rationals; all values appearing in the
     claims are exactly representable.
   * Dates are modelled as integer day numbers with day 0 the start of a
     calendar week, so TruncWeek becomes rounding down to a multiple of 7.
   * The conversion date -> unix timestamp at midnight (and its inverse
     fromtimestamp) is a strictly monotone bijection between trading dates
     and the emitted times; it is modelled as the identity on day numbers.
   * Django querysets are modelled as lists; filter, exclude, order_by and
     the GROUP BY aggregation are modelled by list filtering, sorting and
     grouping over distinct keys.  The scrip argument selects the rows the
     storage collaborator hands to the core, so the embedded functions take
     those row lists directly. -/

/- Daily EodPrice row (the fields used by the core).  The source field
   named open is called openPrice here because open is a Lean keyword. -/
structure DailyBar where
  date : Int
  openPrice : ℚ
  high : ℚ
  low : ℚ
  close : ℚ
deriving DecidableEq, Inhabited

/- Daily Parameter row: the five recognised indicator series (nullable)
   plus the closing price used for bowl breakout confirmation. -/
structure ParamRow where
  trade_date : Int
  ema21 : Option ℚ
  ema50 : Option ℚ
  ema200 : Option ℚ
  rsc30 : Option ℚ
  rsc500 : Option ℚ
  closing_price : ℚ
deriving DecidableEq, Inhabited

/- One weekly candle as produced by the weekly GROUP BY queries.  The new
   schema has no is_successful_trade column, so both weekly builders leave
   that field none (mirroring row.get returning None in the source). -/
structure WeeklyRow where
  week : Int
  date : Int
  openPrice : ℚ
  high : ℚ
  low : ℚ
  close : ℚ
  is_successful_trade : Option ℚ
deriving DecidableEq, Inhabited

/- Minimum and maximum of a list of values, as computed by the running
   folds with float inf sentinels in the source: on the nonempty lists the
   source ever folds over these agree with the sentinel folds. -/
def qMin : List ℚ → ℚ
  | [] => 0
  | h :: t => t.foldl min h

def qMax : List ℚ → ℚ
  | [] => 0
  | h :: t => t.foldl max h

def iMax : List Int → Int
  | [] => 0
  | h :: t => t.foldl max h

/- TruncWeek: the first day of the calendar week containing d. -/
def weekOf (d : Int) : Int := d - d % 7

def dateLE (a b : DailyBar) : Prop := a.date ≤ b.date

instance : DecidableRel dateLE := fun a b => inferInstanceAs (Decidable (a.date ≤ b.date))
instance : IsTotal DailyBar dateLE := ⟨fun a b => Int.le_total a.date b.date⟩
instance : IsTrans DailyBar dateLE := ⟨fun _ _ _ h1 h2 => le_trans h1 h2⟩

def pdateLE (a b : ParamRow) : Prop := a.trade_date ≤ b.trade_date

instance : DecidableRel pdateLE := fun a b => inferInstanceAs (Decidable (a.trade_date ≤ b.trade_date))
instance : IsTotal ParamRow pdateLE := ⟨fun a b => Int.le_total a.trade_date b.trade_date⟩
instance : IsTrans ParamRow pdateLE := ⟨fun _ _ _ h1 h2 => le_trans h1 h2⟩

/- The distinct week keys of a bar list, ascending (GROUP BY week together
   with ORDER BY week). -/
def weekKeys (bars : List DailyBar) : List Int :=
  List.insertionSort (· ≤ ·) ((bars.map (fun b => weekOf b.date)).dedup)

/- The weekly candle of one week key: the Min/Max annotations of
   get_weekly_queryset computed over the bars of that calendar week. -/
def weekCandle (bars : List DailyBar) (w : Int) : WeeklyRow :=
  let g := bars.filter (fun b => weekOf b.date == w)
  { week := w
    openPrice := qMin (g.map (fun b => b.openPrice))
    high := qMax (g.map (fun b => b.high))
    low := qMin (g.map (fun b => b.low))
    close := qMax (g.map (fun b => b.close))
    date := iMax (g.map (fun b => b.date))
    is_successful_trade := none }

/- get_weekly_queryset: one weekly OHLC row per calendar week that has at
   least one daily bar, ordered by week. -/
def get_weekly_queryset (bars : List DailyBar) : List WeeklyRow :=
  (weekKeys bars).map (weekCandle bars)

/- Constants of the source file. -/
def NRB_LOOKBACK : Nat := 7
def BREAKOUT_LOOKAHEAD_WEEKS : Nat := 12

/- A narrow-range-break trigger.  The first ten fields are the entries of
   the Python result dict.  The last three fields record the loop indices
   the dict entries were computed from (window start, NR week, breakout
   week); the dict itself does not carry them, they are kept to state
   window and cooldown properties. -/
structure NRBTrigger where
  time : Int
  score : ℚ
  direction : String
  range_low : ℚ
  range_high : ℚ
  range_start_time : Int
  range_end_time : Int
  nrb_id : Nat
  nr_high : ℚ
  nr_low : ℚ
  window_start : Nat
  nr_idx : Nat
  breakout_idx : Nat
deriving DecidableEq, Inhabited

/- The mutable state of the scan loop of
   _detect_narrow_range_break_python. -/
structure NRBState where
  last_breakout_idx : Int
  nrb_id : Nat
  result : List NRBTrigger
deriving Inhabited

/- rows[j] on the normalized weekly row list; the source only indexes in
   bounds, the default row stands for the unreachable out-of-bounds case. -/
def rowAt (rows : List WeeklyRow) (j : Nat) : WeeklyRow := rows.getD j default

/- One iteration of the candidate loop (body of the for loop at line 264),
   at candidate index i. -/
def nrbStep (rows : List WeeklyRow) (nrb_lookback : Nat) (st : NRBState) (i : Nat) : NRBState :=
  if st.last_breakout_idx ≠ -1 ∧ (i : Int) < st.last_breakout_idx + nrb_lookback then st
  else
    let preceding_rows := nrb_lookback - 1
    let nr_high := (rowAt rows i).high
    let nr_low := (rowAt rows i).low
    let spread := nr_high - nr_low
    let window_start := i - preceding_rows
    let win := List.range' window_start (i + 1 - window_start)
    let min_spread := qMin (win.map (fun j => (rowAt rows j).high - (rowAt rows j).low))
    let range_high := qMax (win.map (fun j => (rowAt rows j).high))
    let range_low := qMin (win.map (fun j => (rowAt rows j).low))
    if spread ≠ min_spread then st
    else
      let lookahead_end := min rows.length (i + 1 + BREAKOUT_LOOKAHEAD_WEEKS)
      match (List.range' (i + 1) (lookahead_end - (i + 1))).find?
          (fun k => decide ((rowAt rows k).high > range_high)) with
      | none => st
      | some k =>
        let t : NRBTrigger :=
          { time := (rowAt rows k).date
            score := ((rowAt rows k).is_successful_trade).getD 0
            direction := "Bullish Break"
            range_low := range_low
            range_high := range_high
            range_start_time := (rowAt rows window_start).date
            range_end_time := (rowAt rows k).date
            nrb_id := st.nrb_id
            nr_high := nr_high
            nr_low := nr_low
            window_start := window_start
            nr_idx := i
            breakout_idx := k }
        { last_breakout_idx := (k : Int), nrb_id := st.nrb_id + 1, result := st.result ++ [t] }

/- _detect_narrow_range_break_python: regime-style NRn detection on weekly
   rows. -/
def detect_narrow_range_break_python (rows : List WeeklyRow) (nrb_lookback : Nat) : List NRBTrigger :=
  if rows.length < nrb_lookback + 1 then []
  else
    let preceding_rows := nrb_lookback - 1
    ((List.range' preceding_rows (rows.length - 1 - preceding_rows)).foldl
      (nrbStep rows nrb_lookback)
      { last_breakout_idx := -1, nrb_id := 1, result := [] }).result

/- _attach_daily_breakout_times_price, refinement of one trigger: find the
   first daily close above the regime resistance inside the trailing
   7-day window of the weekly breakout date and move time onto it. -/
def refine_price (bars : List DailyBar) (t : NRBTrigger) : NRBTrigger :=
  if t.direction ≠ "Bullish Break" then t
  else
    let resistance := t.range_high
    let breakout_week_end_date := t.time
    let week_start_date := breakout_week_end_date - 6
    let daily_qs := List.insertionSort dateLE
      (bars.filter (fun b =>
        decide (week_start_date ≤ b.date) && decide (b.date ≤ breakout_week_end_date)))
    match daily_qs.find? (fun b => decide (b.close > resistance)) with
    | none => t
    | some b => { t with time := b.date }

def attach_daily_breakout_times_price (bars : List DailyBar) (triggers : List NRBTrigger) :
    List NRBTrigger :=
  triggers.map (refine_price bars)

/- _attach_daily_breakout_times_parameter: as above but on Parameter rows,
   monitoring the chosen series field and skipping null values. -/
def refine_param (params : List ParamRow) (fld : ParamRow → Option ℚ) (t : NRBTrigger) :
    NRBTrigger :=
  if t.direction ≠ "Bullish Break" then t
  else
    let resistance := t.range_high
    let breakout_week_end_date := t.time
    let week_start_date := breakout_week_end_date - 6
    let daily_qs := List.insertionSort pdateLE
      (params.filter (fun r =>
        decide (week_start_date ≤ r.trade_date) && decide (r.trade_date ≤ breakout_week_end_date)))
    match daily_qs.find? (fun r =>
        match fld r with
        | none => false
        | some v => decide (v > resistance)) with
    | none => t
    | some r => { t with time := r.trade_date }

def attach_daily_breakout_times_parameter (params : List ParamRow) (fld : ParamRow → Option ℚ)
    (triggers : List NRBTrigger) : List NRBTrigger :=
  triggers.map (refine_param params fld)

/- Bowl constants. -/
def BOWL_MIN_DURATION_DAYS : Nat := 60
def BOWL_LOCAL_MIN_WINDOW_DAYS : Nat := 2
def BOWL_LEFT_LOOKBACK_MIN_DAYS : Int := 20
def BOWL_LEFT_LOOKBACK_MAX_DAYS : Int := 90
def BOWL_RIGHT_LOOKAHEAD_MIN_DAYS : Int := 20
def BOWL_RIGHT_LOOKAHEAD_MAX_DAYS : Int := 90
def BOWL_MIN_DEPTH : ℚ := 6 / 100
def BOWL_RIM_TOLERANCE : ℚ := 30 / 100
def BOWL_MIN_TOTAL_DAYS : Int := 40
def BOWL_BREAKOUT_LOOKAHEAD_DAYS : Nat := 120

/- One normalized row consumed by the bowl detector: EMA50 plus closing
   price; timestamp is the epoch extract of trade_date (identity in the
   day-number model). -/
structure BowlRow where
  date : Int
  timestamp : Int
  ema : ℚ
  close_f : ℚ
deriving DecidableEq, Inhabited

def bowlRowAt (rows : List BowlRow) (j : Nat) : BowlRow := rows.getD j default

/- Python max over indices of a value list with key lookup: the first
   index attaining the maximum (a later index replaces the running best
   only on a strictly larger value). -/
def firstArgmaxAux : List ℚ → ℚ → Nat → Nat → Nat
  | [], _, best, _ => best
  | v :: rest, bv, best, cur =>
    if bv < v then firstArgmaxAux rest v cur (cur + 1)
    else firstArgmaxAux rest bv best (cur + 1)

def firstArgmax : List ℚ → Nat
  | [] => 0
  | v :: rest => firstArgmaxAux rest v 0 1

/- The clamped rim windows of a candidate bottom i (lines 531-539):
   ((left_start, left_end), (right_start, right_end)). -/
def bowlRimBounds (n : Nat) (i : Nat) : (Int × Int) × (Int × Int) :=
  ((max ((i : Int) - BOWL_LEFT_LOOKBACK_MAX_DAYS) 0,
    min ((i : Int) - BOWL_LEFT_LOOKBACK_MIN_DAYS) ((n : Int) - 1)),
   (max ((i : Int) + BOWL_RIGHT_LOOKAHEAD_MIN_DAYS) 0,
    min ((i : Int) + BOWL_RIGHT_LOOKAHEAD_MAX_DAYS) ((n : Int) - 1)))

/- The guard of line 541: the candidate is dropped at the rim-search stage
   iff this is true. -/
def bowlRimSkip (n : Nat) (i : Nat) : Prop :=
  let b := bowlRimBounds n i
  b.1.2 ≤ b.1.1 ∨ b.2.2 ≤ b.2.1

instance (n i : Nat) : Decidable (bowlRimSkip n i) :=
  inferInstanceAs (Decidable (_ ∨ _))

/- The rim indices (lines 544-552): start of the clamped window plus the
   first argmax of the EMA slice over it. -/
def bowlRimIdxs (rows : List BowlRow) (i : Nat) : Nat × Nat :=
  let b := bowlRimBounds rows.length i
  let lsN := b.1.1.toNat
  let leN := b.1.2.toNat
  let rsN := b.2.1.toNat
  let reN := b.2.2.toNat
  (lsN + firstArgmax ((List.range' lsN (leN + 1 - lsN)).map (fun j => (bowlRowAt rows j).ema)),
   rsN + firstArgmax ((List.range' rsN (reN + 1 - rsN)).map (fun j => (bowlRowAt rows j).ema)))

/- One emitted bowl, recording the four defining indices together with the
   data of the three emitted markers. -/
structure BowlI where
  pattern_id : Nat
  left_idx : Nat
  bottom_idx : Nat
  right_idx : Nat
  breakout_idx : Nat
  left_time : Int
  bottom_time : Int
  right_time : Int
  score : ℚ
deriving DecidableEq, Inhabited

structure BowlState where
  last_used : Int
  pattern_id : Nat
  result : List BowlI
deriving Inhabited

/- Body of the bowl candidate loop (lines 514-608) at candidate index i. -/
def bowlStep (rows : List BowlRow) (st : BowlState) (i : Nat) : BowlState :=
  if (i : Int) ≤ st.last_used then st
  else
    let n := rows.length
    let ema_i := (bowlRowAt rows i).ema
    let nbrs := (List.range' (i - BOWL_LOCAL_MIN_WINDOW_DAYS)
        (2 * BOWL_LOCAL_MIN_WINDOW_DAYS + 1)).filter (fun j => j ≠ i)
    if ¬ nbrs.all (fun j => decide ((bowlRowAt rows j).ema > ema_i)) then st
    else if bowlRimSkip n i then st
    else
      let idxs := bowlRimIdxs rows i
      let left_idx := idxs.1
      let right_idx := idxs.2
      let left_ema := (bowlRowAt rows left_idx).ema
      let right_ema := (bowlRowAt rows right_idx).ema
      let total_days := (bowlRowAt rows right_idx).date - (bowlRowAt rows left_idx).date
      if total_days < BOWL_MIN_TOTAL_DAYS then st
      else
        let depth_left := (left_ema - ema_i) / left_ema
        let depth_right := (right_ema - ema_i) / right_ema
        if depth_left < BOWL_MIN_DEPTH ∨ depth_right < BOWL_MIN_DEPTH then st
        else if min left_ema right_ema / max left_ema right_ema < 1 - BOWL_RIM_TOLERANCE then st
        else
          let rim_level := max left_ema right_ema
          match (List.range' (right_idx + 1)
              (min (n - 1) (right_idx + BOWL_BREAKOUT_LOOKAHEAD_DAYS) + 1 - (right_idx + 1))).find?
              (fun k => decide ((bowlRowAt rows k).close_f > rim_level)) with
          | none => st
          | some k =>
            let b : BowlI :=
              { pattern_id := st.pattern_id
                left_idx := left_idx
                bottom_idx := i
                right_idx := right_idx
                breakout_idx := k
                left_time := (bowlRowAt rows left_idx).timestamp
                bottom_time := (bowlRowAt rows i).timestamp
                right_time := (bowlRowAt rows right_idx).timestamp
                score := 1 }
            { last_used := (k : Int), pattern_id := st.pattern_id + 1,
              result := st.result ++ [b] }

/- The bowl scan over all candidate bottoms. -/
def bowlAux (rows : List BowlRow) : List BowlI :=
  if rows.length < BOWL_MIN_DURATION_DAYS * 2 then []
  else
    ((List.range' BOWL_LOCAL_MIN_WINDOW_DAYS
        (rows.length - BOWL_LOCAL_MIN_WINDOW_DAYS - BOWL_LOCAL_MIN_WINDOW_DAYS)).foldl
      (bowlStep rows) { last_used := -1, pattern_id := 1, result := [] }).result

/- The marker dicts of the bowl path carry only time, score, pattern_id. -/
structure BowlTrigger where
  time : Int
  score : ℚ
  pattern_id : Nat
deriving DecidableEq, Inhabited

def bowlMarkers (b : BowlI) : List BowlTrigger :=
  [{ time := b.left_time, score := b.score, pattern_id := b.pattern_id },
   { time := b.bottom_time, score := b.score, pattern_id := b.pattern_id },
   { time := b.right_time, score := b.score, pattern_id := b.pattern_id }]

/- Normalization of the queryset rows done at the top of
   _detect_bowl_pattern. -/
def bowlRowOf (r : ParamRow) : BowlRow :=
  { date := r.trade_date
    timestamp := r.trade_date
    ema := (r.ema50).getD 0
    close_f := r.closing_price }

def detect_bowl_pattern (queryset : List ParamRow) : List BowlTrigger :=
  ((bowlAux (queryset.map bowlRowOf)).map bowlMarkers).flatten

/- The top-level dispatcher get_pattern_triggers.  A trigger is either a
   narrow-range dict or a bowl marker dict. -/
inductive Trigger where
  | nrb (t : NRBTrigger)
  | bowl (t : BowlTrigger)
deriving DecidableEq

instance : Inhabited Trigger := ⟨Trigger.nrb default⟩

def Trigger.score : Trigger → ℚ
  | Trigger.nrb t => t.score
  | Trigger.bowl t => t.score

def Trigger.time : Trigger → Int
  | Trigger.nrb t => t.time
  | Trigger.bowl t => t.time

/- (series or "").strip().lower() -/
def seriesNormalize (series : Option String) : String := ((series.getD "").trim).toLower

/- weeks if weeks and weeks > 0 else NRB_LOOKBACK -/
def nrWeeksOf (weeks : Int) : Nat := if 0 < weeks then weeks.toNat else NRB_LOOKBACK

def PRICE_SERIES_NAMES : List String := ["", "price", "close", "closing_price"]

def PARAM_FIELD_MAP (s : String) : Option (ParamRow → Option ℚ) :=
  if s = "ema21" then some (fun r => r.ema21)
  else if s = "ema50" then some (fun r => r.ema50)
  else if s = "ema200" then some (fun r => r.ema200)
  else if s = "rsc30" then some (fun r => r.rsc30)
  else if s = "rsc500" then some (fun r => r.rsc500)
  else none

/- The weekly query of the Parameter-series path builds candles whose
   high, low and close are the Max/Min of the chosen series over the week;
   it is embedded by viewing each parameter row as a daily bar carrying
   the series value as high, low and close (there is no open annotation in
   that query; the unused openPrice field is fixed to 0). -/
def paramView (fld : ParamRow → Option ℚ) (r : ParamRow) : DailyBar :=
  { date := r.trade_date
    openPrice := 0
    high := (fld r).getD 0
    low := (fld r).getD 0
    close := (fld r).getD 0 }

/- get_pattern_triggers.  The scrip argument of the source selects which
   rows the storage collaborator returns; here the EodPrice rows (eod) and
   Parameter rows (params) of that instrument are passed directly.  The
   nrb_lookback and success_rate arguments are kept and ignored exactly as
   in the source. -/
def get_pattern_triggers (pattern : String) (nrb_lookback : Int) (success_rate : ℚ)
    (weeks : Int) (series : Option String) (eod : List DailyBar) (params : List ParamRow) :
    List Trigger :=
  let series_normalized := seriesNormalize series
  if pattern = "Narrow Range Break" then
    if series_normalized ∈ PRICE_SERIES_NAMES then
      let weekly_qs := get_weekly_queryset eod
      let total_weeks := weekly_qs.length
      let nr_weeks := nrWeeksOf weeks
      if total_weeks < nr_weeks + 2 then []
      else if weekly_qs = [] then []
      else
        (attach_daily_breakout_times_price eod
          (detect_narrow_range_break_python weekly_qs nr_weeks)).map Trigger.nrb
    else
      match PARAM_FIELD_MAP series_normalized with
      | none => []
      | some fld =>
        let param_qs := List.insertionSort pdateLE (params.filter (fun r => (fld r).isSome))
        let weekly_qs := get_weekly_queryset (param_qs.map (paramView fld))
        let total_weeks := weekly_qs.length
        let nr_weeks := nrWeeksOf weeks
        if total_weeks < nr_weeks + 2 then []
        else if weekly_qs = [] then []
        else
          (attach_daily_breakout_times_parameter param_qs fld
            (detect_narrow_range_break_python weekly_qs nr_weeks)).map Trigger.nrb
  else if pattern = "Bowl" then
    let param_qs := List.insertionSort pdateLE (params.filter (fun r => r.ema50.isSome))
    (detect_bowl_pattern param_qs).map Trigger.bowl
  else []

/- What is true of every emitted narrow-range trigger, in terms of the
   recorded loop indices. -/
def NRBTriggerSpec (rows : List WeeklyRow) (lb : Nat) (t : NRBTrigger) : Prop :=
  t.window_start + (lb - 1) = t.nr_idx ∧
  t.nr_idx < t.breakout_idx ∧
  t.breakout_idx < rows.length ∧
  t.time = (rowAt rows t.breakout_idx).date ∧
  t.range_end_time = (rowAt rows t.breakout_idx).date ∧
  t.range_start_time = (rowAt rows t.window_start).date ∧
  t.range_high = qMax ((List.range' t.window_start (t.nr_idx + 1 - t.window_start)).map
    (fun j => (rowAt rows j).high)) ∧
  (rowAt rows t.breakout_idx).high > t.range_high ∧
  t.score = ((rowAt rows t.breakout_idx).is_successful_trade).getD 0 ∧
  t.direction = "Bullish Break"

/- Cooldown relation between consecutive emitted triggers: the later
   defining window starts strictly after both the earlier window and the
   earlier breakout week. -/
def nrbChainRel (lb : Nat) (a b : NRBTrigger) : Prop :=
  a.window_start + lb ≤ b.window_start ∧ a.breakout_idx < b.window_start

def NRBInv (rows : List WeeklyRow) (lb : Nat) (st : NRBState) : Prop :=
  (∀ t ∈ st.result, NRBTriggerSpec rows lb t) ∧
  List.Chain' (nrbChainRel lb) st.result ∧
  ((st.last_breakout_idx = -1 ∧ st.result = []) ∨
   (∃ pre t, st.result = pre ++ [t] ∧ st.last_breakout_idx = (t.breakout_idx : Int)))

/- Equality on every trigger field except time. -/
def sameExceptTime (t u : NRBTrigger) : Prop :=
  u.score = t.score ∧ u.direction = t.direction ∧ u.range_low = t.range_low ∧
  u.range_high = t.range_high ∧ u.range_start_time = t.range_start_time ∧
  u.range_end_time = t.range_end_time ∧ u.nrb_id = t.nrb_id ∧ u.nr_high = t.nr_high ∧
  u.nr_low = t.nr_low ∧ u.window_start = t.window_start ∧ u.nr_idx = t.nr_idx ∧
  u.breakout_idx = t.breakout_idx

/- The trailing 7-day refinement window of a trigger, as a date predicate. -/
def inBreakoutWindow (t : NRBTrigger) (d : Int) : Prop := t.time - 6 ≤ d ∧ d ≤ t.time

/- What holds of every emitted bowl. -/
def BowlISpec (b : BowlI) : Prop :=
  b.bottom_idx < b.right_idx ∧ b.right_idx < b.breakout_idx ∧ b.score = 1

def bowlChainRel (a b : BowlI) : Prop := a.breakout_idx < b.bottom_idx

def BowlInv (st : BowlState) : Prop :=
  (∀ b ∈ st.result, BowlISpec b) ∧
  List.Chain' bowlChainRel st.result ∧
  ((st.last_used = -1 ∧ st.result = []) ∨
   (∃ pre b, st.result = pre ++ [b] ∧ st.last_used = (b.breakout_idx : Int)))

/- Concrete inputs used by the counterexamples and witnesses. -/

/- One weekly candle: week j, high h, low l. -/
def wkr (j : Nat) (h l : ℚ) : WeeklyRow :=
  { week := 7 * j, date := 7 * j, openPrice := 1, high := h, low := l, close := h,
    is_successful_trade := none }

/- Scenario A of the specification: highs [10,10,10,10,10,10,9,10,10,15],
   lows 5 except week 6 where low = 8. -/
def scenarioA : List WeeklyRow :=
  [wkr 0 10 5, wkr 1 10 5, wkr 2 10 5, wkr 3 10 5, wkr 4 10 5,
   wkr 5 10 5, wkr 6 9 8, wkr 7 10 5, wkr 8 10 5, wkr 9 15 5]

/- Six weekly candles producing two back-to-back regimes under n = 2. -/
def c2rows : List WeeklyRow :=
  [wkr 0 10 5, wkr 1 10 6, wkr 2 11 5, wkr 3 11 5, wkr 4 11 8, wkr 5 12 5]

/- A 240-day EMA series shaped as two bowls, the second bottom right after
   the first breakout. -/
def cexEma (j : Nat) : ℚ :=
  if j ≤ 10 then 800 + 20 * (j : ℚ)
  else if j ≤ 40 then 1000 - 3 * ((j : ℚ) - 10)
  else if j ≤ 70 then 910 + 5 * ((j : ℚ) - 40)
  else if j ≤ 91 then 1060 - 7 * ((j : ℚ) - 70)
  else if j ≤ 131 then 913 + 3 * ((j : ℚ) - 91)
  else 1033 - 2 * ((j : ℚ) - 131)

def cexClose (j : Nat) : ℚ := if j = 71 ∨ j = 132 then 1100 else 100

def cexBowlRows : List BowlRow :=
  (List.range 240).map (fun (j : Nat) =>
    { date := (j : Int), timestamp := (j : Int), ema := cexEma j, close_f := cexClose j })

/- Three daily bars, one per week: the weekly breakout week has a high
   above the regime resistance but its daily close stays below it. -/
def c4bars : List DailyBar :=
  [{ date := 0, openPrice := 1, high := 10, low := 5, close := 6 },
   { date := 7, openPrice := 1, high := 9, low := 5, close := 6 },
   { date := 14, openPrice := 1, high := 15, low := 5, close := 9 }]

/- The trigger get_pattern_triggers emits on c4bars with weeks = 1. -/
def c4trig : NRBTrigger :=
  { time := 14, score := 0, direction := "Bullish Break", range_low := 5, range_high := 10,
    range_start_time := 0, range_end_time := 14, nrb_id := 1, nr_high := 10, nr_low := 5,
    window_start := 0, nr_idx := 0, breakout_idx := 2 }

/- Parameter rows mirroring c4bars on the ema21 series. -/
def pr (d : Int) (v : ℚ) : ParamRow :=
  { trade_date := d, ema21 := some v, ema50 := none, ema200 := none, rsc30 := none,
    rsc500 := none, closing_price := 1 }

def c4params : List ParamRow := [pr 0 10, pr 7 9, pr 14 15]

/- The trigger the ema21 path emits on c4params with weeks = 1. -/
def c4ptrig : NRBTrigger :=
  { time := 14, score := 0, direction := "Bullish Break", range_low := 10, range_high := 10,
    range_start_time := 0, range_end_time := 14, nrb_id := 1, nr_high := 10, nr_low := 10,
    window_start := 0, nr_idx := 0, breakout_idx := 2 }

/- The two-bowl series as Parameter rows on the ema50 field. -/
def cexParams : List ParamRow :=
  (List.range 240).map (fun (j : Nat) =>
    { trade_date := (j : Int), ema21 := none, ema50 := some (cexEma j), ema200 := none,
      rsc30 := none, rsc500 := none, closing_price := cexClose j })

/- The projection of an output trigger to its resistance level (0 for bowl
   markers, which carry none). -/
def trigRangeHigh : Trigger → ℚ
  | Trigger.nrb t => t.range_high
  | Trigger.bowl _ => 0

/- Generic helper lemmas. -/

theorem mem_range'_iff {s n m : Nat} : m ∈ List.range' s n ↔ s ≤ m ∧ m < s + n := by
  rw [List.mem_range']
  constructor
  · rintro ⟨i, hi, rfl⟩; omega
  · intro h; exact ⟨m - s, by omega, by omega⟩

theorem le_foldl_max {α : Type} [LinearOrder α] (l : List α) (a : α) : a ≤ l.foldl max a := by
  induction l generalizing a with
  | nil => exact le_refl a
  | cons h t ih => exact le_trans (le_max_left a h) (ih (max a h))

theorem foldl_max_le_of_mem {α : Type} [LinearOrder α] {l : List α} {x : α} (hx : x ∈ l)
    (a : α) : x ≤ l.foldl max a := by
  induction l generalizing a with
  | nil => cases hx
  | cons h t ih =>
    rcases List.mem_cons.1 hx with rfl | hx'
    · exact le_trans (le_max_right a x) (le_foldl_max t (max a x))
    · exact ih hx' (max a h)

theorem foldl_max_mem {α : Type} [LinearOrder α] (l : List α) (a : α) :
    l.foldl max a = a ∨ l.foldl max a ∈ l := by
  induction l generalizing a with
  | nil => exact Or.inl rfl
  | cons h t ih =>
    rcases ih (max a h) with he | hm
    · rw [List.foldl_cons, he]
      rcases max_choice a h with h1 | h1
      · exact Or.inl h1
      · exact Or.inr (by rw [h1]; exact List.mem_cons_self h t)
    · exact Or.inr (List.mem_cons_of_mem h hm)

theorem foldl_min_le_init {α : Type} [LinearOrder α] (l : List α) (a : α) : l.foldl min a ≤ a := by
  induction l generalizing a with
  | nil => exact le_refl a
  | cons h t ih => exact le_trans (ih (min a h)) (min_le_left a h)

theorem foldl_min_le_of_mem {α : Type} [LinearOrder α] {l : List α} {x : α} (hx : x ∈ l)
    (a : α) : l.foldl min a ≤ x := by
  induction l generalizing a with
  | nil => cases hx
  | cons h t ih =>
    rcases List.mem_cons.1 hx with rfl | hx'
    · exact le_trans (foldl_min_le_init t (min a x)) (min_le_right a x)
    · exact ih hx' (min a h)

theorem le_qMax {l : List ℚ} {x : ℚ} (hx : x ∈ l) : x ≤ qMax l := by
  cases l with
  | nil => cases hx
  | cons h t =>
    rcases List.mem_cons.1 hx with rfl | hx'
    · exact le_foldl_max t x
    · exact foldl_max_le_of_mem hx' h

theorem qMax_mem {l : List ℚ} (hl : l ≠ []) : qMax l ∈ l := by
  cases l with
  | nil => exact absurd rfl hl
  | cons h t =>
    show t.foldl max h ∈ h :: t
    rcases foldl_max_mem t h with he | hm
    · rw [he]; exact List.mem_cons_self h t
    · exact List.mem_cons_of_mem h hm

theorem qMin_le {l : List ℚ} {x : ℚ} (hx : x ∈ l) : qMin l ≤ x := by
  cases l with
  | nil => cases hx
  | cons h t =>
    rcases List.mem_cons.1 hx with rfl | hx'
    · exact foldl_min_le_init t x
    · exact foldl_min_le_of_mem hx' h

theorem le_iMax {l : List Int} {x : Int} (hx : x ∈ l) : x ≤ iMax l := by
  cases l with
  | nil => cases hx
  | cons h t =>
    rcases List.mem_cons.1 hx with rfl | hx'
    · exact le_foldl_max t x
    · exact foldl_max_le_of_mem hx' h

theorem iMax_mem {l : List Int} (hl : l ≠ []) : iMax l ∈ l := by
  cases l with
  | nil => exact absurd rfl hl
  | cons h t =>
    show t.foldl max h ∈ h :: t
    rcases foldl_max_mem t h with he | hm
    · rw [he]; exact List.mem_cons_self h t
    · exact List.mem_cons_of_mem h hm

theorem getD_mem {α : Type} {l : List α} {n : Nat} (h : n < l.length) (d : α) :
    l.getD n d ∈ l := by
  rw [List.getD_eq_getElem?_getD, List.getElem?_eq_getElem h]
  exact List.getElem_mem h

/- Characterization of the Python first-argmax fold. -/
theorem firstArgmaxAux_spec :
    ∀ (rest : List ℚ) (bv : ℚ) (best cur : Nat),
      (firstArgmaxAux rest bv best cur = best ∧ ∀ v ∈ rest, v ≤ bv) ∨
      (∃ m, m < rest.length ∧ firstArgmaxAux rest bv best cur = cur + m ∧
        bv < rest.getD m 0 ∧ (∀ j < m, rest.getD j 0 < rest.getD m 0) ∧
        (∀ j < rest.length, rest.getD j 0 ≤ rest.getD m 0)) := by
  intro rest
  induction rest with
  | nil =>
    intro bv best cur
    exact Or.inl ⟨rfl, by intro v hv; cases hv⟩
  | cons v rest ih =>
    intro bv best cur
    by_cases hv : bv < v
    · have hstep : firstArgmaxAux (v :: rest) bv best cur = firstArgmaxAux rest v cur (cur + 1) := by
        simp [firstArgmaxAux, hv]
      rcases ih v cur (cur + 1) with ⟨heq, hall⟩ | ⟨m, hm, heq, hlt, hearl, hall⟩
      · refine Or.inr ⟨0, by simp, ?_, by simpa using hv, ?_, ?_⟩
        · rw [hstep, heq]; omega
        · intro j hj; omega
        · intro j hj
          cases j with
          | zero => simp
          | succ j' =>
            simp only [List.getD_cons_succ, List.getD_cons_zero]
            exact hall _ (getD_mem (by simpa using hj) 0)
      · refine Or.inr ⟨m + 1, by simpa using hm, ?_, ?_, ?_, ?_⟩
        · rw [hstep, heq]; omega
        · simpa using lt_trans hv hlt
        · intro j hj
          cases j with
          | zero => simpa using hlt
          | succ j' => simpa using hearl j' (by omega)
        · intro j hj
          cases j with
          | zero => simpa using le_of_lt hlt
          | succ j' => simpa using hall j' (by simpa using hj)
    · have hstep : firstArgmaxAux (v :: rest) bv best cur = firstArgmaxAux rest bv best (cur + 1) := by
        simp [firstArgmaxAux, hv]
      have hvle : v ≤ bv := le_of_not_lt hv
      rcases ih bv best (cur + 1) with ⟨heq, hall⟩ | ⟨m, hm, heq, hlt, hearl, hall⟩
      · refine Or.inl ⟨by rw [hstep, heq], ?_⟩
        intro x hx
        rcases List.mem_cons.1 hx with rfl | hx'
        · exact hvle
        · exact hall x hx'
      · refine Or.inr ⟨m + 1, by simpa using hm, ?_, ?_, ?_, ?_⟩
        · rw [hstep, heq]; omega
        · simpa using hlt
        · intro j hj
          cases j with
          | zero => simpa using lt_of_le_of_lt hvle hlt
          | succ j' => simpa using hearl j' (by omega)
        · intro j hj
          cases j with
          | zero => simpa using le_trans hvle (le_of_lt hlt)
          | succ j' => simpa using hall j' (by simpa using hj)

theorem firstArgmax_lt_length {l : List ℚ} (hl : l ≠ []) : firstArgmax l < l.length := by
  cases l with
  | nil => exact absurd rfl hl
  | cons v rest =>
    show firstArgmaxAux rest v 0 1 < rest.length + 1
    rcases firstArgmaxAux_spec rest v 0 1 with ⟨heq, _⟩ | ⟨m, hm, heq, _, _, _⟩
    · omega
    · omega

theorem firstArgmax_is_max (l : List ℚ) :
    ∀ j < l.length, l.getD j 0 ≤ l.getD (firstArgmax l) 0 := by
  cases l with
  | nil => intro j hj; cases hj
  | cons v rest =>
    show ∀ j < rest.length + 1, (v :: rest).getD j 0 ≤ (v :: rest).getD (firstArgmaxAux rest v 0 1) 0
    rcases firstArgmaxAux_spec rest v 0 1 with ⟨heq, hall⟩ | ⟨m, hm, heq, hlt, _, hall⟩
    · rw [heq]
      intro j hj
      cases j with
      | zero => simp
      | succ j' =>
        simp only [List.getD_cons_succ, List.getD_cons_zero]
        exact hall _ (getD_mem (by omega) 0)
    · rw [heq]
      intro j hj
      have h1m : (1 + m : Nat) = m + 1 := by omega
      rw [h1m]
      cases j with
      | zero => simpa using le_of_lt hlt
      | succ j' => simpa using hall j' (by omega)

theorem firstArgmax_is_first (l : List ℚ) :
    ∀ j < firstArgmax l, l.getD j 0 < l.getD (firstArgmax l) 0 := by
  cases l with
  | nil => intro j hj; simp [firstArgmax] at hj
  | cons v rest =>
    show ∀ j < firstArgmaxAux rest v 0 1, _ < (v :: rest).getD (firstArgmaxAux rest v 0 1) 0
    rcases firstArgmaxAux_spec rest v 0 1 with ⟨heq, _⟩ | ⟨m, hm, heq, hlt, hearl, _⟩
    · rw [heq]; intro j hj; cases hj
    · rw [heq]
      intro j hj
      have h1m : (1 + m : Nat) = m + 1 := by omega
      rw [h1m]
      cases j with
      | zero => simpa using hlt
      | succ j' => simpa using hearl j' (by omega)

/- Week arithmetic. -/

theorem weekOf_le (d : Int) : weekOf d ≤ d := by
  have h := Int.emod_nonneg d (by norm_num : (7 : Int) ≠ 0)
  unfold weekOf; omega

theorem lt_weekOf_add (d : Int) : d < weekOf d + 7 := by
  have h := Int.emod_lt_of_pos d (by norm_num : (0 : Int) < 7)
  unfold weekOf; omega

theorem weekOf_eq_mul (d : Int) : weekOf d = 7 * (d / 7) := by
  have h := Int.ediv_add_emod d 7
  unfold weekOf; omega

theorem seven_dvd_weekOf (d : Int) : 7 ∣ weekOf d := ⟨d / 7, weekOf_eq_mul d⟩

theorem weekOf_mono {a b : Int} (h : a ≤ b) : weekOf a ≤ weekOf b := by
  rw [weekOf_eq_mul, weekOf_eq_mul]
  have := Int.ediv_le_ediv (by norm_num : (0 : Int) < 7) h
  omega

theorem weekOf_of_dvd {w : Int} (h : 7 ∣ w) : weekOf w = w := by
  unfold weekOf
  rw [Int.emod_eq_zero_of_dvd h]
  omega

theorem weekOf_between {d e : Int} (h1 : weekOf d ≤ e) (h2 : e ≤ d) : weekOf e = weekOf d := by
  have hlo : weekOf d ≤ weekOf e := by
    have := weekOf_mono h1
    rwa [weekOf_of_dvd (seven_dvd_weekOf d)] at this
  have hhi : weekOf e ≤ weekOf d := weekOf_mono h2
  omega

/- In a list sorted by a key, find? never passes over an element with a
   strictly smaller key than the hit. -/
theorem sorted_find?_earlier {α : Type} (key : α → Int) {p : α → Bool} :
    ∀ {l : List α}, l.Sorted (fun a b => key a ≤ key b) → ∀ {x}, l.find? p = some x →
      ∀ y ∈ l, key y < key x → p y = false := by
  intro l
  induction l with
  | nil => intro _ x hx; cases hx
  | cons h t ih =>
    intro hs x hx y hy hky
    rcases List.sorted_cons.1 hs with ⟨hall, hts⟩
    by_cases hp : p h
    · rw [List.find?_cons_of_pos _ hp] at hx
      cases hx
      rcases List.mem_cons.1 hy with rfl | hy'
      · omega
      · exact absurd (hall y hy') (by omega)
    · rw [List.find?_cons_of_neg _ (by simpa using hp)] at hx
      rcases List.mem_cons.1 hy with rfl | hy'
      · simpa using hp
      · exact ih hts hx y hy' hky



theorem nrbStep_inv {rows : List WeeklyRow} {lb : Nat} {st : NRBState} {i : Nat}
    (hlb : 1 ≤ lb) (hi : lb - 1 ≤ i) (h : NRBInv rows lb st) :
    NRBInv rows lb (nrbStep rows lb st i) := by
  simp only [nrbStep]
  split
  · exact h
  next hcool =>
    split
    · exact h
    next hspread =>
      split
      · exact h
      next k hfind =>
        have hkmem := List.mem_of_find?_eq_some hfind
        have hkp := List.find?_some hfind
        have hkgt : (rowAt rows k).high >
            qMax ((List.range' (i - (lb - 1)) (i + 1 - (i - (lb - 1)))).map
              (fun j => (rowAt rows j).high)) := of_decide_eq_true hkp
        rw [mem_range'_iff] at hkmem
        have hle : min rows.length (i + 1 + BREAKOUT_LOOKAHEAD_WEEKS) ≤ rows.length :=
          min_le_left _ _
        have hik : i + 1 ≤ k := hkmem.1
        have hklen : k < rows.length := by omega
        obtain ⟨hspec, hchain, hlast⟩ := h
        set t : NRBTrigger :=
          { time := (rowAt rows k).date
            score := ((rowAt rows k).is_successful_trade).getD 0
            direction := "Bullish Break"
            range_low := qMin ((List.range' (i - (lb - 1)) (i + 1 - (i - (lb - 1)))).map
              (fun j => (rowAt rows j).low))
            range_high := qMax ((List.range' (i - (lb - 1)) (i + 1 - (i - (lb - 1)))).map
              (fun j => (rowAt rows j).high))
            range_start_time := (rowAt rows (i - (lb - 1))).date
            range_end_time := (rowAt rows k).date
            nrb_id := st.nrb_id
            nr_high := (rowAt rows i).high
            nr_low := (rowAt rows i).low
            window_start := i - (lb - 1)
            nr_idx := i
            breakout_idx := k } with ht
        have htspec : NRBTriggerSpec rows lb t := by
          rw [ht]
          unfold NRBTriggerSpec
          dsimp only
          exact ⟨by omega, by omega, hklen, rfl, rfl, rfl, rfl, hkgt, rfl, rfl⟩
        refine ⟨?_, ?_, ?_⟩
        · intro u hu
          rcases List.mem_append.1 hu with hu' | hu'
          · exact hspec u hu'
          · rw [List.mem_singleton.1 hu']; exact htspec
        · rw [List.chain'_append]
          refine ⟨hchain, List.chain'_singleton t, ?_⟩
          intro x hx y hy
          rw [List.head?_cons, Option.mem_some_iff] at hy
          subst hy
          rcases hlast with ⟨_, hnil⟩ | ⟨pre, t0, hres, hbk⟩
          · rw [hnil, List.getLast?_nil] at hx; cases hx
          · rw [hres, List.getLast?_concat, Option.mem_some_iff] at hx
            subst hx
            have ht0 : NRBTriggerSpec rows lb t0 :=
              hspec t0 (by rw [hres]; exact List.mem_append_right pre (List.mem_singleton_self t0))
            have hne : (t0.breakout_idx : Int) ≠ -1 := by omega
            have hicool : ¬ ((i : Int) < (t0.breakout_idx : Int) + lb) := fun hc =>
              hcool ⟨by rw [hbk]; exact hne, by rw [hbk]; exact hc⟩
            have hcd : t0.breakout_idx + lb ≤ i := by
              have h2 := not_lt.1 hicool
              exact_mod_cast h2
            obtain ⟨hw1, hw2, _⟩ := ht0
            constructor
            · show t0.window_start + lb ≤ i - (lb - 1)
              omega
            · show t0.breakout_idx < i - (lb - 1)
              omega
        · exact Or.inr ⟨st.result, t, rfl, rfl⟩

/- Generic invariant preservation for foldl. -/
theorem foldl_inv {σ α : Type} {f : σ → α → σ} {P : σ → Prop} {Q : α → Prop} :
    ∀ {l : List α}, (∀ a ∈ l, Q a) → (∀ s a, Q a → P s → P (f s a)) →
      ∀ {s : σ}, P s → P (l.foldl f s) := by
  intro l
  induction l with
  | nil => intro _ _ _ h; exact h
  | cons a t ih =>
    intro hQ hstep s hs
    exact ih (fun b hb => hQ b (List.mem_cons_of_mem a hb)) hstep
      (hstep s a (hQ a (List.mem_cons_self a t)) hs)

theorem detect_inv (rows : List WeeklyRow) (lb : Nat) (hlb : 1 ≤ lb) :
    (∀ t ∈ detect_narrow_range_break_python rows lb, NRBTriggerSpec rows lb t) ∧
    List.Chain' (nrbChainRel lb) (detect_narrow_range_break_python rows lb) := by
  unfold detect_narrow_range_break_python
  split
  · exact ⟨fun t ht => absurd ht (List.not_mem_nil t), List.chain'_nil⟩
  · have hinv : NRBInv rows lb
        ((List.range' (lb - 1) (rows.length - 1 - (lb - 1))).foldl (nrbStep rows lb)
          { last_breakout_idx := -1, nrb_id := 1, result := [] }) := by
      refine foldl_inv (Q := fun i => lb - 1 ≤ i) ?_ ?_ ?_
      · intro a ha; exact (mem_range'_iff.1 ha).1
      · intro s a hQa hPs; exact nrbStep_inv hlb hQa hPs
      · exact ⟨fun t ht => absurd ht (List.not_mem_nil t), List.chain'_nil, Or.inl ⟨rfl, rfl⟩⟩
    exact ⟨hinv.1, hinv.2.1⟩

theorem detect_spec (rows : List WeeklyRow) (lb : Nat) (hlb : 1 ≤ lb) :
    ∀ t ∈ detect_narrow_range_break_python rows lb, NRBTriggerSpec rows lb t :=
  (detect_inv rows lb hlb).1

theorem detect_chain (rows : List WeeklyRow) (lb : Nat) (hlb : 1 ≤ lb) :
    List.Chain' (nrbChainRel lb) (detect_narrow_range_break_python rows lb) :=
  (detect_inv rows lb hlb).2

/- Weekly aggregator lemmas. -/

theorem getD_map {α β : Type} (f : α → β) {l : List α} {p : Nat} (hp : p < l.length)
    (d : α) : (l.map f).getD p (f d) = f (l.getD p d) := by
  rw [List.getD_eq_getElem?_getD, List.getD_eq_getElem?_getD, List.getElem?_map,
    List.getElem?_eq_getElem hp]
  rfl

theorem sorted_lt_getD {l : List Int} (hs : l.Sorted (· < ·)) {p q : Nat} (hpq : p < q)
    (hq : q < l.length) (d : Int) : l.getD p d < l.getD q d := by
  rw [List.getD_eq_getElem?_getD, List.getD_eq_getElem?_getD,
    List.getElem?_eq_getElem (lt_trans hpq hq), List.getElem?_eq_getElem hq]
  exact List.pairwise_iff_getElem.1 hs p q _ _ hpq

theorem mem_weekKeys {bars : List DailyBar} {w : Int} :
    w ∈ weekKeys bars ↔ ∃ b ∈ bars, weekOf b.date = w := by
  unfold weekKeys
  rw [(List.perm_insertionSort _ _).mem_iff, List.mem_dedup, List.mem_map]

theorem weekKeys_sorted_lt (bars : List DailyBar) : (weekKeys bars).Sorted (· < ·) := by
  have hle : (weekKeys bars).Sorted (· ≤ ·) := List.sorted_insertionSort _ _
  have hnd : (weekKeys bars).Nodup :=
    ((List.perm_insertionSort _ _).nodup_iff).2 (List.nodup_dedup _)
  exact hle.lt_of_le hnd

theorem weekly_eq_map (bars : List DailyBar) :
    get_weekly_queryset bars = (weekKeys bars).map (weekCandle bars) := rfl

theorem mem_weekly {bars : List DailyBar} {c : WeeklyRow} :
    c ∈ get_weekly_queryset bars ↔ ∃ w ∈ weekKeys bars, c = weekCandle bars w := by
  rw [weekly_eq_map, List.mem_map]
  constructor
  · rintro ⟨w, hw, rfl⟩; exact ⟨w, hw, rfl⟩
  · rintro ⟨w, hw, rfl⟩; exact ⟨w, hw, rfl⟩

theorem weekly_map_week (bars : List DailyBar) :
    (get_weekly_queryset bars).map (fun c => c.week) = weekKeys bars := by
  rw [weekly_eq_map, List.map_map]
  exact List.map_id _

theorem weekly_week_sorted_lt (bars : List DailyBar) :
    ((get_weekly_queryset bars).map (fun c => c.week)).Sorted (· < ·) := by
  rw [weekly_map_week]; exact weekKeys_sorted_lt bars

/- Membership in the calendar-week group of a candle. -/
theorem mem_weekGroup {bars : List DailyBar} {w : Int} {b : DailyBar} :
    b ∈ bars.filter (fun b => weekOf b.date == w) ↔ b ∈ bars ∧ weekOf b.date = w := by
  rw [List.mem_filter, beq_iff_eq]

theorem weekGroup_ne_nil {bars : List DailyBar} {w : Int} (hw : w ∈ weekKeys bars) :
    bars.filter (fun b => weekOf b.date == w) ≠ [] := by
  obtain ⟨b, hb, hbw⟩ := mem_weekKeys.1 hw
  intro hnil
  have : b ∈ bars.filter (fun b => weekOf b.date == w) := mem_weekGroup.2 ⟨hb, hbw⟩
  rw [hnil] at this
  cases this

/- The date of a candle is the date of one of the bars of its week. -/
theorem weekCandle_date_mem {bars : List DailyBar} {w : Int} (hw : w ∈ weekKeys bars) :
    ∃ b ∈ bars, weekOf b.date = w ∧ (weekCandle bars w).date = b.date := by
  have hne := weekGroup_ne_nil hw
  have hmem : iMax ((bars.filter (fun b => weekOf b.date == w)).map (fun b => b.date)) ∈
      (bars.filter (fun b => weekOf b.date == w)).map (fun b => b.date) := by
    apply iMax_mem
    intro hnil
    exact hne (List.map_eq_nil_iff.1 hnil)
  obtain ⟨b, hb, hbd⟩ := List.mem_map.1 hmem
  obtain ⟨hbb, hbw⟩ := mem_weekGroup.1 hb
  exact ⟨b, hbb, hbw, hbd.symm⟩

theorem weekCandle_week_eq_weekOf_date {bars : List DailyBar} {w : Int}
    (hw : w ∈ weekKeys bars) : weekOf (weekCandle bars w).date = w := by
  obtain ⟨b, _, hbw, hd⟩ := weekCandle_date_mem hw
  rw [hd, hbw]

/- Every bar of the week is dominated by the candle aggregates. -/
theorem weekCandle_high_ge {bars : List DailyBar} {w : Int} {b : DailyBar}
    (hb : b ∈ bars) (hbw : weekOf b.date = w) : b.high ≤ (weekCandle bars w).high := by
  apply le_qMax
  exact List.mem_map_of_mem _ (mem_weekGroup.2 ⟨hb, hbw⟩)

theorem weekCandle_date_ge {bars : List DailyBar} {w : Int} {b : DailyBar}
    (hb : b ∈ bars) (hbw : weekOf b.date = w) : b.date ≤ (weekCandle bars w).date := by
  apply le_iMax
  exact List.mem_map_of_mem _ (mem_weekGroup.2 ⟨hb, hbw⟩)

/- Refinement lemmas. -/



theorem refine_price_fields (bars : List DailyBar) (t : NRBTrigger) :
    sameExceptTime t (refine_price bars t) := by
  simp only [refine_price]
  split
  · exact ⟨rfl, rfl, rfl, rfl, rfl, rfl, rfl, rfl, rfl, rfl, rfl, rfl⟩
  · split
    · exact ⟨rfl, rfl, rfl, rfl, rfl, rfl, rfl, rfl, rfl, rfl, rfl, rfl⟩
    · exact ⟨rfl, rfl, rfl, rfl, rfl, rfl, rfl, rfl, rfl, rfl, rfl, rfl⟩

theorem refine_param_fields (params : List ParamRow) (fld : ParamRow → Option ℚ)
    (t : NRBTrigger) : sameExceptTime t (refine_param params fld t) := by
  simp only [refine_param]
  split
  · exact ⟨rfl, rfl, rfl, rfl, rfl, rfl, rfl, rfl, rfl, rfl, rfl, rfl⟩
  · split
    · exact ⟨rfl, rfl, rfl, rfl, rfl, rfl, rfl, rfl, rfl, rfl, rfl, rfl⟩
    · exact ⟨rfl, rfl, rfl, rfl, rfl, rfl, rfl, rfl, rfl, rfl, rfl, rfl⟩

theorem mem_refine_daily {bars : List DailyBar} {lo hi : Int} {b : DailyBar} :
    b ∈ List.insertionSort dateLE (bars.filter (fun b =>
        decide (lo ≤ b.date) && decide (b.date ≤ hi))) ↔
      b ∈ bars ∧ lo ≤ b.date ∧ b.date ≤ hi := by
  rw [(List.perm_insertionSort _ _).mem_iff, List.mem_filter, Bool.and_eq_true,
    decide_eq_true_iff, decide_eq_true_iff]

theorem refine_price_time (bars : List DailyBar) (t : NRBTrigger)
    (hdir : t.direction = "Bullish Break") :
    (∃ b ∈ bars, inBreakoutWindow t b.date ∧ b.close > t.range_high ∧
        (refine_price bars t).time = b.date ∧
        ∀ y ∈ bars, inBreakoutWindow t y.date → y.date < b.date → ¬ y.close > t.range_high) ∨
    ((∀ b ∈ bars, inBreakoutWindow t b.date → ¬ b.close > t.range_high) ∧
        (refine_price bars t).time = t.time) := by
  simp only [refine_price]
  rw [if_neg (by simp [hdir])]
  have hsorted : (List.insertionSort dateLE (bars.filter (fun b =>
      decide (t.time - 6 ≤ b.date) && decide (b.date ≤ t.time)))).Sorted dateLE :=
    List.sorted_insertionSort _ _
  cases hfind : (List.insertionSort dateLE (bars.filter (fun b =>
      decide (t.time - 6 ≤ b.date) && decide (b.date ≤ t.time)))).find?
      (fun b => decide (b.close > t.range_high)) with
  | none =>
    refine Or.inr ⟨?_, rfl⟩
    intro b hb hw
    have hmem : b ∈ List.insertionSort dateLE (bars.filter (fun b =>
        decide (t.time - 6 ≤ b.date) && decide (b.date ≤ t.time))) :=
      mem_refine_daily.2 ⟨hb, hw.1, hw.2⟩
    have := List.find?_eq_none.1 hfind b hmem
    simpa using this
  | some b =>
    have hbmem := mem_refine_daily.1 (List.mem_of_find?_eq_some hfind)
    have hbp : b.close > t.range_high := by
      have := List.find?_some hfind
      simpa using this
    refine Or.inl ⟨b, hbmem.1, ⟨hbmem.2.1, hbmem.2.2⟩, hbp, rfl, ?_⟩
    intro y hy hyw hylt
    have hymem : y ∈ List.insertionSort dateLE (bars.filter (fun b =>
        decide (t.time - 6 ≤ b.date) && decide (b.date ≤ t.time))) :=
      mem_refine_daily.2 ⟨hy, hyw.1, hyw.2⟩
    have hfalse := sorted_find?_earlier (fun b => b.date) hsorted hfind y hymem hylt
    simpa using hfalse

theorem mem_refine_pdaily {params : List ParamRow} {lo hi : Int} {r : ParamRow} :
    r ∈ List.insertionSort pdateLE (params.filter (fun r =>
        decide (lo ≤ r.trade_date) && decide (r.trade_date ≤ hi))) ↔
      r ∈ params ∧ lo ≤ r.trade_date ∧ r.trade_date ≤ hi := by
  rw [(List.perm_insertionSort _ _).mem_iff, List.mem_filter, Bool.and_eq_true,
    decide_eq_true_iff, decide_eq_true_iff]

theorem refine_param_time (params : List ParamRow) (fld : ParamRow → Option ℚ)
    (t : NRBTrigger) (hdir : t.direction = "Bullish Break") :
    (∃ r ∈ params, inBreakoutWindow t r.trade_date ∧
        (∃ v, fld r = some v ∧ v > t.range_high) ∧
        (refine_param params fld t).time = r.trade_date ∧
        ∀ y ∈ params, inBreakoutWindow t y.trade_date → y.trade_date < r.trade_date →
          ∀ v, fld y = some v → ¬ v > t.range_high) ∨
    ((∀ r ∈ params, inBreakoutWindow t r.trade_date → ∀ v, fld r = some v →
        ¬ v > t.range_high) ∧
      (refine_param params fld t).time = t.time) := by
  simp only [refine_param]
  rw [if_neg (by simp [hdir])]
  have hsorted : (List.insertionSort pdateLE (params.filter (fun r =>
      decide (t.time - 6 ≤ r.trade_date) && decide (r.trade_date ≤ t.time)))).Sorted pdateLE :=
    List.sorted_insertionSort _ _
  cases hfind : (List.insertionSort pdateLE (params.filter (fun r =>
      decide (t.time - 6 ≤ r.trade_date) && decide (r.trade_date ≤ t.time)))).find?
      (fun r => match fld r with
        | none => false
        | some v => decide (v > t.range_high)) with
  | none =>
    refine Or.inr ⟨?_, rfl⟩
    intro r hr hw v hv
    have hmem : r ∈ List.insertionSort pdateLE (params.filter (fun r =>
        decide (t.time - 6 ≤ r.trade_date) && decide (r.trade_date ≤ t.time))) :=
      mem_refine_pdaily.2 ⟨hr, hw.1, hw.2⟩
    have hp := List.find?_eq_none.1 hfind r hmem
    rw [hv] at hp
    simpa using hp
  | some r =>
    have hrmem := mem_refine_pdaily.1 (List.mem_of_find?_eq_some hfind)
    have hrp := List.find?_some hfind
    have hrv : ∃ v, fld r = some v ∧ v > t.range_high := by
      cases hfr : fld r with
      | none => rw [hfr] at hrp; cases hrp
      | some v =>
        rw [hfr] at hrp
        exact ⟨v, rfl, by simpa using hrp⟩
    refine Or.inl ⟨r, hrmem.1, ⟨hrmem.2.1, hrmem.2.2⟩, hrv, rfl, ?_⟩
    intro y hy hyw hylt v hv
    have hymem : y ∈ List.insertionSort pdateLE (params.filter (fun r =>
        decide (t.time - 6 ≤ r.trade_date) && decide (r.trade_date ≤ t.time))) :=
      mem_refine_pdaily.2 ⟨hy, hyw.1, hyw.2⟩
    have hfalse := sorted_find?_earlier (fun r => r.trade_date) hsorted hfind y hymem hylt
    rw [hv] at hfalse
    simpa using hfalse

theorem weekly_length (bars : List DailyBar) :
    (get_weekly_queryset bars).length = (weekKeys bars).length := by
  rw [weekly_eq_map, List.length_map]

theorem weekly_rowAt_eq (bars : List DailyBar) {j : Nat}
    (hj : j < (get_weekly_queryset bars).length) :
    rowAt (get_weekly_queryset bars) j = weekCandle bars ((weekKeys bars).getD j 0) := by
  have hj' : j < (weekKeys bars).length := by rwa [weekly_length] at hj
  unfold rowAt
  rw [List.getD_eq_getElem?_getD, List.getD_eq_getElem?_getD, weekly_eq_map,
    List.getElem?_map, List.getElem?_eq_getElem hj']
  rfl

theorem weekly_rowAt_week_lt (bars : List DailyBar) {p q : Nat} (hpq : p < q)
    (hq : q < (get_weekly_queryset bars).length) :
    (rowAt (get_weekly_queryset bars) p).week < (rowAt (get_weekly_queryset bars) q).week := by
  have hp : p < (get_weekly_queryset bars).length := lt_trans hpq hq
  rw [weekly_rowAt_eq bars hp, weekly_rowAt_eq bars hq]
  exact sorted_lt_getD (weekKeys_sorted_lt bars) hpq (by rwa [weekly_length] at hq) 0

theorem weekly_rowAt_week_facts (bars : List DailyBar) {j : Nat}
    (hj : j < (get_weekly_queryset bars).length) :
    weekOf (rowAt (get_weekly_queryset bars) j).date = (rowAt (get_weekly_queryset bars) j).week ∧
    7 ∣ (rowAt (get_weekly_queryset bars) j).week ∧
    (rowAt (get_weekly_queryset bars) j).week ≤ (rowAt (get_weekly_queryset bars) j).date := by
  have hj' : j < (weekKeys bars).length := by rwa [weekly_length] at hj
  have hwmem : (weekKeys bars).getD j 0 ∈ weekKeys bars := getD_mem hj' 0
  rw [weekly_rowAt_eq bars hj]
  have hweek := weekCandle_week_eq_weekOf_date hwmem
  refine ⟨hweek, ?_, ?_⟩
  · show 7 ∣ (weekKeys bars).getD j 0
    obtain ⟨b, _, hbw⟩ := mem_weekKeys.1 hwmem
    rw [← hbw]
    exact seven_dvd_weekOf b.date
  · show (weekKeys bars).getD j 0 ≤ (weekCandle bars ((weekKeys bars).getD j 0)).date
    have h1 := weekOf_le (weekCandle bars ((weekKeys bars).getD j 0)).date
    rw [hweek] at h1
    exact h1

/- Breakout causality for the price path: after daily refinement, every
   trigger fires strictly after the regime start, and either the daily bar
   at the refined time closes above the resistance, or no daily bar of the
   trailing breakout week window does (silent weekly-granularity fallback).
   Requires the OHLC sanity close <= high on every input bar. -/
theorem causality_price (bars : List DailyBar) (lb : Nat) (hlb : 1 ≤ lb)
    (hwf : ∀ b ∈ bars, b.close ≤ b.high) :
    ∀ u ∈ attach_daily_breakout_times_price bars
        (detect_narrow_range_break_python (get_weekly_queryset bars) lb),
      u.range_start_time < u.time ∧
      ((∃ b ∈ bars, b.date = u.time ∧ b.close > u.range_high) ∨
       (∀ b ∈ bars, u.time - 6 ≤ b.date → b.date ≤ u.time → ¬ b.close > u.range_high)) := by
  intro u hu
  obtain ⟨t, ht, rfl⟩ := List.mem_map.1 hu
  have hspec := detect_spec (get_weekly_queryset bars) lb hlb t ht
  obtain ⟨hw_nr, hnr_k, hk_len, htime, _, hrst, hrh, hbk_gt, _, hdir⟩ := hspec
  obtain ⟨_, _, _, hfrh, hfrst, _, _, _, _, _, _, _⟩ := refine_price_fields bars t
  have hws_lt_k : t.window_start < t.breakout_idx := by omega
  have hws_len : t.window_start < (get_weekly_queryset bars).length := by omega
  obtain ⟨hwk_ws, hdvd_ws, hwd_ws⟩ := weekly_rowAt_week_facts bars hws_len
  obtain ⟨hwk_k, hdvd_k, hwd_k⟩ := weekly_rowAt_week_facts bars hk_len
  have hweek_lt := weekly_rowAt_week_lt bars hws_lt_k hk_len
  have hweek7 : (rowAt (get_weekly_queryset bars) t.window_start).week + 7 ≤
      (rowAt (get_weekly_queryset bars) t.breakout_idx).week := by omega
  have hdate_lt : (rowAt (get_weekly_queryset bars) t.window_start).date <
      (rowAt (get_weekly_queryset bars) t.breakout_idx).date := by
    have h1 := lt_weekOf_add (rowAt (get_weekly_queryset bars) t.window_start).date
    rw [hwk_ws] at h1
    omega
  have hwin_high : (rowAt (get_weekly_queryset bars) t.window_start).high ≤ t.range_high := by
    rw [hrh]
    apply le_qMax
    apply List.mem_map_of_mem
    rw [mem_range'_iff]
    omega
  rcases refine_price_time bars t hdir with
    ⟨b, hb, hbw, hbgt, hbtime, _⟩ | ⟨hnone, hutime⟩
  · constructor
    · rw [hfrst, hrst, hbtime]
      by_contra hle
      push_neg at hle
      have hbdate_ge : b.date ≥ (rowAt (get_weekly_queryset bars) t.breakout_idx).date - 6 := by
        have := hbw.1
        rw [htime] at this
        omega
      have hbweek_ge : (rowAt (get_weekly_queryset bars) t.window_start).week ≤
          weekOf b.date := by
        have h1 : (rowAt (get_weekly_queryset bars) t.window_start).week ≤ b.date := by omega
        have h2 := weekOf_mono h1
        rwa [weekOf_of_dvd hdvd_ws] at h2
      have hbweek_le : weekOf b.date ≤
          (rowAt (get_weekly_queryset bars) t.window_start).week := by
        have h2 := weekOf_mono hle
        rwa [hwk_ws] at h2
      have heqrow := weekly_rowAt_eq bars hws_len
      have hw_eq : (rowAt (get_weekly_queryset bars) t.window_start).week =
          (weekKeys bars).getD t.window_start 0 := by
        rw [heqrow]; rfl
      have hbw_eq : weekOf b.date = (weekKeys bars).getD t.window_start 0 := by omega
      have hhigh := weekCandle_high_ge hb hbw_eq
      rw [← heqrow] at hhigh
      exact absurd hbgt (not_lt.2 (le_trans (hwf b hb) (le_trans hhigh hwin_high)))
    · exact Or.inl ⟨b, hb, hbtime.symm, by rwa [hfrh]⟩
  · constructor
    · rw [hfrst, hrst, hutime, htime]
      exact hdate_lt
    · refine Or.inr ?_
      intro b hb h1 h2
      rw [hfrh]
      rw [hutime] at h1 h2
      exact hnone b hb ⟨h1, h2⟩

/- Breakout causality for the Parameter-series path, mirroring
   causality_price; the OHLC sanity hypothesis is automatic because the
   weekly extrema and the refined daily value come from the same series. -/
theorem causality_param (P : List ParamRow) (fld : ParamRow → Option ℚ) (lb : Nat)
    (hlb : 1 ≤ lb) :
    ∀ u ∈ attach_daily_breakout_times_parameter P fld
        (detect_narrow_range_break_python (get_weekly_queryset (P.map (paramView fld))) lb),
      u.range_start_time < u.time ∧
      ((∃ r ∈ P, r.trade_date = u.time ∧ ∃ v, fld r = some v ∧ v > u.range_high) ∨
       (∀ r ∈ P, u.time - 6 ≤ r.trade_date → r.trade_date ≤ u.time →
          ∀ v, fld r = some v → ¬ v > u.range_high)) := by
  intro u hu
  obtain ⟨t, ht, rfl⟩ := List.mem_map.1 hu
  have hspec := detect_spec (get_weekly_queryset (P.map (paramView fld))) lb hlb t ht
  obtain ⟨hw_nr, hnr_k, hk_len, htime, _, hrst, hrh, hbk_gt, _, hdir⟩ := hspec
  obtain ⟨_, _, _, hfrh, hfrst, _, _, _, _, _, _, _⟩ := refine_param_fields P fld t
  have hws_lt_k : t.window_start < t.breakout_idx := by omega
  have hws_len : t.window_start < (get_weekly_queryset (P.map (paramView fld))).length := by
    omega
  obtain ⟨hwk_ws, hdvd_ws, hwd_ws⟩ := weekly_rowAt_week_facts (P.map (paramView fld)) hws_len
  obtain ⟨hwk_k, hdvd_k, hwd_k⟩ := weekly_rowAt_week_facts (P.map (paramView fld)) hk_len
  have hweek_lt := weekly_rowAt_week_lt (P.map (paramView fld)) hws_lt_k hk_len
  have hweek7 : (rowAt (get_weekly_queryset (P.map (paramView fld))) t.window_start).week + 7 ≤
      (rowAt (get_weekly_queryset (P.map (paramView fld))) t.breakout_idx).week := by omega
  have hdate_lt : (rowAt (get_weekly_queryset (P.map (paramView fld))) t.window_start).date <
      (rowAt (get_weekly_queryset (P.map (paramView fld))) t.breakout_idx).date := by
    have h1 := lt_weekOf_add
      (rowAt (get_weekly_queryset (P.map (paramView fld))) t.window_start).date
    rw [hwk_ws] at h1
    omega
  have hwin_high : (rowAt (get_weekly_queryset (P.map (paramView fld))) t.window_start).high ≤
      t.range_high := by
    rw [hrh]
    apply le_qMax
    apply List.mem_map_of_mem
    rw [mem_range'_iff]
    omega
  rcases refine_param_time P fld t hdir with
    ⟨r, hr, hrw, ⟨v, hfr, hvgt⟩, hrtime, _⟩ | ⟨hnone, hutime⟩
  · constructor
    · rw [hfrst, hrst, hrtime]
      by_contra hle
      push_neg at hle
      have hrdate_ge : r.trade_date ≥
          (rowAt (get_weekly_queryset (P.map (paramView fld))) t.breakout_idx).date - 6 := by
        have := hrw.1
        rw [htime] at this
        omega
      have hbweek_ge : (rowAt (get_weekly_queryset (P.map (paramView fld))) t.window_start).week ≤
          weekOf r.trade_date := by
        have h1 : (rowAt (get_weekly_queryset (P.map (paramView fld))) t.window_start).week ≤
            r.trade_date := by omega
        have h2 := weekOf_mono h1
        rwa [weekOf_of_dvd hdvd_ws] at h2
      have hbweek_le : weekOf r.trade_date ≤
          (rowAt (get_weekly_queryset (P.map (paramView fld))) t.window_start).week := by
        have h2 := weekOf_mono hle
        rwa [hwk_ws] at h2
      have heqrow := weekly_rowAt_eq (P.map (paramView fld)) hws_len
      have hw_eq : (rowAt (get_weekly_queryset (P.map (paramView fld))) t.window_start).week =
          (weekKeys (P.map (paramView fld))).getD t.window_start 0 := by
        rw [heqrow]; rfl
      have hbw_eq : weekOf (paramView fld r).date =
          (weekKeys (P.map (paramView fld))).getD t.window_start 0 := by
        show weekOf r.trade_date = _
        omega
      have hhigh := weekCandle_high_ge (List.mem_map_of_mem (paramView fld) hr) hbw_eq
      rw [← heqrow] at hhigh
      have hpv : (paramView fld r).high = v := by
        show (fld r).getD 0 = v
        rw [hfr]
        rfl
      rw [hpv] at hhigh
      exact absurd hvgt (not_lt.2 (le_trans hhigh hwin_high))
    · exact Or.inl ⟨r, hr, hrtime.symm, v, hfr, by rwa [hfrh]⟩
  · constructor
    · rw [hfrst, hrst, hutime, htime]
      exact hdate_lt
    · refine Or.inr ?_
      intro r hr h1 h2 v hv
      rw [hfrh]
      rw [hutime] at h1 h2
      exact hnone r hr ⟨h1, h2⟩ v hv

/- Dispatcher lemmas. -/

theorem nrWeeksOf_pos (weeks : Int) : 1 ≤ nrWeeksOf weeks := by
  unfold nrWeeksOf NRB_LOOKBACK
  split <;> omega

theorem price_names_param_none {s : String} (h : s ∈ PRICE_SERIES_NAMES) :
    PARAM_FIELD_MAP s = none := by
  simp only [PRICE_SERIES_NAMES, List.mem_cons, List.not_mem_nil, or_false] at h
  rcases h with rfl | rfl | rfl | rfl <;> rfl

theorem gpt_price_eq (lookback : Int) (sr : ℚ) (weeks : Int) (series : Option String)
    (eod : List DailyBar) (params : List ParamRow)
    (hser : seriesNormalize series ∈ PRICE_SERIES_NAMES) :
    get_pattern_triggers "Narrow Range Break" lookback sr weeks series eod params =
      if (get_weekly_queryset eod).length < nrWeeksOf weeks + 2 then []
      else if get_weekly_queryset eod = [] then []
      else (attach_daily_breakout_times_price eod
        (detect_narrow_range_break_python (get_weekly_queryset eod)
          (nrWeeksOf weeks))).map Trigger.nrb := by
  simp only [get_pattern_triggers]
  rw [if_pos trivial, if_pos hser]

theorem gpt_param_eq (lookback : Int) (sr : ℚ) (weeks : Int) (series : Option String)
    (eod : List DailyBar) (params : List ParamRow) {fld : ParamRow → Option ℚ}
    (hser : PARAM_FIELD_MAP (seriesNormalize series) = some fld) :
    get_pattern_triggers "Narrow Range Break" lookback sr weeks series eod params =
      if (get_weekly_queryset ((List.insertionSort pdateLE
          (params.filter (fun r => (fld r).isSome))).map (paramView fld))).length <
            nrWeeksOf weeks + 2 then []
      else if get_weekly_queryset ((List.insertionSort pdateLE
          (params.filter (fun r => (fld r).isSome))).map (paramView fld)) = [] then []
      else (attach_daily_breakout_times_parameter
          (List.insertionSort pdateLE (params.filter (fun r => (fld r).isSome))) fld
          (detect_narrow_range_break_python
            (get_weekly_queryset ((List.insertionSort pdateLE
              (params.filter (fun r => (fld r).isSome))).map (paramView fld)))
            (nrWeeksOf weeks))).map Trigger.nrb := by
  have hnotprice : seriesNormalize series ∉ PRICE_SERIES_NAMES := by
    intro hmem
    rw [price_names_param_none hmem] at hser
    cases hser
  simp only [get_pattern_triggers]
  rw [if_pos trivial, if_neg hnotprice, hser]

theorem gpt_bowl_eq (lookback : Int) (sr : ℚ) (weeks : Int) (series : Option String)
    (eod : List DailyBar) (params : List ParamRow) :
    get_pattern_triggers "Bowl" lookback sr weeks series eod params =
      (detect_bowl_pattern (List.insertionSort pdateLE
        (params.filter (fun r => r.ema50.isSome)))).map Trigger.bowl := by
  simp only [get_pattern_triggers]
  rw [if_neg (show ("Bowl" : String) ≠ "Narrow Range Break" by simp), if_pos trivial]

/- Bowl lemmas. -/

theorem slice_getD (rows : List BowlRow) (s cnt m : Nat) (hm : m < cnt) :
    ((List.range' s cnt).map (fun j => (bowlRowAt rows j).ema)).getD m 0 =
      (bowlRowAt rows (s + m)).ema := by
  rw [List.getD_eq_getElem?_getD, List.getElem?_map, List.getElem?_range' s 1 hm]
  simp

/- The rim chosen over a clamped index window [s, e] with at least two
   elements: it lies in the window, attains the maximal EMA there, and is
   the earliest index doing so. -/
theorem argmax_window_spec (rows : List BowlRow) {s e : Int} (hs : 0 ≤ s) (hse : s < e) :
    (s ≤ ((s.toNat + firstArgmax ((List.range' s.toNat (e.toNat + 1 - s.toNat)).map
        (fun j => (bowlRowAt rows j).ema)) : Nat) : Int) ∧
      ((s.toNat + firstArgmax ((List.range' s.toNat (e.toNat + 1 - s.toNat)).map
        (fun j => (bowlRowAt rows j).ema)) : Nat) : Int) ≤ e) ∧
    (∀ j : Nat, s ≤ (j : Int) → (j : Int) ≤ e →
      (bowlRowAt rows j).ema ≤ (bowlRowAt rows (s.toNat + firstArgmax
        ((List.range' s.toNat (e.toNat + 1 - s.toNat)).map
          (fun j => (bowlRowAt rows j).ema)))).ema) ∧
    (∀ j : Nat, s ≤ (j : Int) → j < s.toNat + firstArgmax
        ((List.range' s.toNat (e.toNat + 1 - s.toNat)).map
          (fun j => (bowlRowAt rows j).ema)) →
      (bowlRowAt rows j).ema < (bowlRowAt rows (s.toNat + firstArgmax
        ((List.range' s.toNat (e.toNat + 1 - s.toNat)).map
          (fun j => (bowlRowAt rows j).ema)))).ema) := by
  set sN := s.toNat with hsN
  set cnt := e.toNat + 1 - sN with hcnt
  set slice := (List.range' sN cnt).map (fun j => (bowlRowAt rows j).ema) with hslice
  have hsN' : (sN : Int) = s := Int.toNat_of_nonneg hs
  have heN : (e.toNat : Int) = e := Int.toNat_of_nonneg (by omega)
  have hcnt2 : 2 ≤ cnt := by omega
  have hlen : slice.length = cnt := by
    rw [hslice, List.length_map, List.length_range']
  have hne : slice ≠ [] := by
    intro hnil
    rw [hnil] at hlen
    simp at hlen
    omega
  have ham : firstArgmax slice < cnt := by
    have := firstArgmax_lt_length hne
    omega
  set am := firstArgmax slice with ham'
  have hval : slice.getD am 0 = (bowlRowAt rows (sN + am)).ema := slice_getD rows sN cnt am ham
  refine ⟨⟨by omega, by omega⟩, ?_, ?_⟩
  · intro j hj1 hj2
    have hjs : sN ≤ j := by omega
    have hjm : j - sN < cnt := by omega
    have hmax := firstArgmax_is_max slice (j - sN) (by omega)
    rw [hval, slice_getD rows sN cnt (j - sN) hjm] at hmax
    have hj' : sN + (j - sN) = j := by omega
    rwa [hj'] at hmax
  · intro j hj1 hj2
    have hjs : sN ≤ j := by omega
    have hjm : j - sN < am := by omega
    have hfirst := firstArgmax_is_first slice (j - sN) (by omega)
    rw [hval, slice_getD rows sN cnt (j - sN) (by omega)] at hfirst
    have hj' : sN + (j - sN) = j := by omega
    rwa [hj'] at hfirst



theorem bowlRimIdxs_right_ge (rows : List BowlRow) (i : Nat) :
    i + 20 ≤ (bowlRimIdxs rows i).2 := by
  simp only [bowlRimIdxs, bowlRimBounds, BOWL_RIGHT_LOOKAHEAD_MIN_DAYS]
  omega

theorem bowlStep_inv {rows : List BowlRow} {st : BowlState} {i : Nat}
    (h : BowlInv st) : BowlInv (bowlStep rows st i) := by
  simp only [bowlStep]
  split
  · exact h
  next hskip =>
    split
    · exact h
    split
    · exact h
    split
    · exact h
    split
    · exact h
    split
    · exact h
    split
    · exact h
    next k hfind =>
      have hkmem := List.mem_of_find?_eq_some hfind
      rw [mem_range'_iff] at hkmem
      have hright : i + 20 ≤ (bowlRimIdxs rows i).2 := bowlRimIdxs_right_ge rows i
      have hik : (bowlRimIdxs rows i).2 + 1 ≤ k := hkmem.1
      obtain ⟨hspec, hchain, hlast⟩ := h
      refine ⟨?_, ?_, ?_⟩
      · intro b hb
        rcases List.mem_append.1 hb with hb' | hb'
        · exact hspec b hb'
        · rw [List.mem_singleton.1 hb']
          refine ⟨?_, ?_, rfl⟩ <;> dsimp only <;> omega
      · rw [List.chain'_append]
        refine ⟨hchain, List.chain'_singleton _, ?_⟩
        intro x hx y hy
        rw [List.head?_cons, Option.mem_some_iff] at hy
        subst hy
        rcases hlast with ⟨_, hnil⟩ | ⟨pre, b0, hres, hbk⟩
        · rw [hnil, List.getLast?_nil] at hx; cases hx
        · rw [hres, List.getLast?_concat, Option.mem_some_iff] at hx
          subst hx
          show b0.breakout_idx < i
          have hgt : ¬ ((i : Int) ≤ st.last_used) := hskip
          rw [hbk] at hgt
          omega
      · exact Or.inr ⟨st.result, _, rfl, rfl⟩

theorem bowlAux_inv (rows : List BowlRow) :
    (∀ b ∈ bowlAux rows, BowlISpec b) ∧ List.Chain' bowlChainRel (bowlAux rows) := by
  unfold bowlAux
  split
  · exact ⟨fun b hb => absurd hb (List.not_mem_nil b), List.chain'_nil⟩
  · have hinv : BowlInv ((List.range' BOWL_LOCAL_MIN_WINDOW_DAYS
        (rows.length - BOWL_LOCAL_MIN_WINDOW_DAYS - BOWL_LOCAL_MIN_WINDOW_DAYS)).foldl
          (bowlStep rows) { last_used := -1, pattern_id := 1, result := [] }) := by
      refine foldl_inv (Q := fun _ => True) (fun a _ => trivial) ?_ ?_
      · intro s a _ hPs; exact bowlStep_inv hPs
      · exact ⟨fun b hb => absurd hb (List.not_mem_nil b), List.chain'_nil, Or.inl ⟨rfl, rfl⟩⟩
    exact ⟨hinv.1, hinv.2.1⟩

theorem detect_bowl_score (queryset : List ParamRow) :
    ∀ m ∈ detect_bowl_pattern queryset, m.score = 1 := by
  intro m hm
  unfold detect_bowl_pattern at hm
  rw [List.mem_flatten] at hm
  obtain ⟨l, hl, hml⟩ := hm
  obtain ⟨b, hb, rfl⟩ := List.mem_map.1 hl
  have hbs := (bowlAux_inv (queryset.map bowlRowOf)).1 b hb
  simp only [bowlMarkers, List.mem_cons, List.not_mem_nil, or_false] at hml
  rcases hml with h1 | h1 | h1
  · rw [h1]; exact hbs.2.2
  · rw [h1]; exact hbs.2.2
  · rw [h1]; exact hbs.2.2

theorem weekly_succ_trade_none (bars : List DailyBar) (j : Nat) :
    (rowAt (get_weekly_queryset bars) j).is_successful_trade = none := by
  unfold rowAt
  rcases lt_or_ge j (get_weekly_queryset bars).length with hj | hj
  · have hmem := getD_mem (l := get_weekly_queryset bars) hj default
    obtain ⟨w, _, hc⟩ := mem_weekly.1 hmem
    rw [hc]
    rfl
  · rw [List.getD_eq_getElem?_getD, List.getElem?_eq_none hj]
    rfl



/- C1 -/

/-- C1: the claim asserts that on Scenario A with n = 4 the single emitted
Trigger has narrow week index 6 with nrHigh = 9 and nrLow = 8.  False: the
scan already qualifies candidate index 3 (all spreads in its window tie at
5, and spread(3) equals the window minimum), so the emitted narrow week is
index 3 with nrHigh = 10 and nrLow = 5. -/
theorem C1_counterexample :
    (detect_narrow_range_break_python scenarioA 4).map (fun t => (t.nr_high, t.nr_low)) ≠
      [((9 : ℚ), (8 : ℚ))] := by
  with_unfolding_all decide

/-- C1 (amended): on Scenario A with n = 4 the detector emits exactly one
Trigger, whose narrow week is index 3 (nrHigh = 10, nrLow = 5), whose
regime window is [0..3] with rangeHigh = 10 and rangeStartTime = week 0
date, and whose time is week 9 date (index 9 is the breakout week). -/
theorem C1_amended_scenarioA :
    detect_narrow_range_break_python scenarioA 4 =
      [{ time := 63, score := 0, direction := "Bullish Break", range_low := 5,
         range_high := 10, range_start_time := 0, range_end_time := 63, nrb_id := 1,
         nr_high := 10, nr_low := 5, window_start := 0, nr_idx := 3, breakout_idx := 9 }] := by
  with_unfolding_all decide

/- C2 -/

/-- C2: the claim asserts that the later regime window start index is at
least the earlier breakout index plus n.  False on c2rows with n = 2: the
detector emits regimes with (window_start, nr, breakout) = (0,1,2) and
(3,4,5), and 3 < 2 + 2.  (The cooldown only guarantees the later window
starts strictly after the earlier breakout index.) -/
theorem C2_counterexample :
    (detect_narrow_range_break_python c2rows 2).map
        (fun t => (t.window_start, t.nr_idx, t.breakout_idx)) = [(0, 1, 2), (3, 4, 5)] ∧
      ¬ ((2 : Nat) + 2 ≤ 3) :=
  ⟨by with_unfolding_all decide, by decide⟩

/-- C2 (amended): for every weekly input and window size n >= 1, any two
consecutive emitted triggers have disjoint defining n-week windows (the
later window start is at least the earlier window start plus n), and the
later window starts strictly after the earlier breakout index. -/
theorem C2_amended_cooldown :
    ∀ (rows : List WeeklyRow) (n : Nat), 1 ≤ n →
      List.Chain' (fun a b => a.window_start + n ≤ b.window_start ∧
          a.breakout_idx < b.window_start)
        (detect_narrow_range_break_python rows n) :=
  fun rows n hn => detect_chain rows n hn

/-- Witness for C2 (amended) at the concrete input c2rows with n = 2. -/
theorem C2_witness :
    List.Chain' (fun a b => a.window_start + 2 ≤ b.window_start ∧
        a.breakout_idx < b.window_start)
      (detect_narrow_range_break_python c2rows 2) :=
  C2_amended_cooldown c2rows 2 (by norm_num)

/- C3 -/

set_option maxRecDepth 1000000 in
/-- C3: the claim asserts that the spans [leftRimIndex, breakoutIndex] of
consecutive emitted bowls never overlap.  False on cexBowlRows: the scan
emits bowls with (left, bottom, right, breakout) = (10,40,70,71) and
(70,91,131,132); the second left rim 70 lies inside the first span
[10,71] (bars 70 and 71 belong to both spans, and bar 70 is even emitted
as a marker of both patterns). -/
theorem C3_counterexample :
    (bowlAux cexBowlRows).map (fun b => (b.left_idx, b.bottom_idx, b.right_idx, b.breakout_idx)) =
        [(10, 40, 70, 71), (70, 91, 131, 132)] ∧ ¬ ((71 : Nat) < 70) :=
  ⟨by with_unfolding_all decide, by decide⟩

/-- C3 (amended): the cooldown pointer only guarantees that consecutive
emitted bowls have disjoint [bottomIndex, breakoutIndex] spans: every
emitted bowl has bottom before breakout, and the later bottom index is
strictly greater than the earlier breakout index; left rims may still
reach back into the earlier span. -/
theorem C3_amended_bowl_nonoverlap :
    ∀ rows : List BowlRow,
      (∀ b ∈ bowlAux rows, b.bottom_idx < b.breakout_idx) ∧
      List.Chain' (fun a b => a.breakout_idx < b.bottom_idx) (bowlAux rows) := by
  intro rows
  obtain ⟨hspec, hchain⟩ := bowlAux_inv rows
  refine ⟨?_, hchain⟩
  intro b hb
  obtain ⟨h1, h2, _⟩ := hspec b hb
  omega

set_option maxRecDepth 1000000 in
/-- Witness for C3 (amended) at the concrete input cexBowlRows. -/
theorem C3_witness :
    List.Chain' (fun a b => a.breakout_idx < b.bottom_idx) (bowlAux cexBowlRows) :=
  (C3_amended_bowl_nonoverlap cexBowlRows).2

/- C4 -/

/-- C4: the claim asserts that in the final output every narrow-range
Trigger sits on a bar whose monitored value strictly exceeds rangeHigh.
False on c4bars with weeks = 1: the weekly breakout (week of day 14,
weekly high 15 > resistance 10) contains no daily close above 10, so
refinement degrades silently, the emitted trigger keeps time 14 and the
bar at day 14 closes at 9 <= 10. -/
theorem C4_counterexample :
    (get_pattern_triggers "Narrow Range Break" 0 0 1 none c4bars []).map
        (fun tr => (tr.time, trigRangeHigh tr)) = [((14 : Int), (10 : ℚ))] ∧
      (∀ b ∈ c4bars, b.date = 14 → ¬ b.close > 10) :=
  ⟨by with_unfolding_all decide, by with_unfolding_all decide⟩

/-- C4 (amended): every narrow-range Trigger in the final output of
get_pattern_triggers has its time strictly after its rangeStartTime; and
the monitored value at time strictly exceeds rangeHigh whenever some bar
of the trailing 7-day refinement window does (the refinement success
case) - otherwise the time stays at the weekly breakout date and no bar
of that window exceeds rangeHigh.  For the price path this needs the OHLC
sanity close <= high on the input bars; for indicator series it holds
unconditionally. -/
theorem C4_amended_breakout_causality :
    (∀ (eod : List DailyBar) (params : List ParamRow) (series : Option String)
        (lookback : Int) (sr : ℚ) (weeks : Int),
      (∀ b ∈ eod, b.close ≤ b.high) →
      seriesNormalize series ∈ PRICE_SERIES_NAMES →
      ∀ t : NRBTrigger,
        Trigger.nrb t ∈ get_pattern_triggers "Narrow Range Break" lookback sr weeks series
          eod params →
        t.range_start_time < t.time ∧
        ((∃ b ∈ eod, b.date = t.time ∧ b.close > t.range_high) ∨
         (∀ b ∈ eod, t.time - 6 ≤ b.date → b.date ≤ t.time → ¬ b.close > t.range_high))) ∧
    (∀ (eod : List DailyBar) (params : List ParamRow) (series : Option String)
        (lookback : Int) (sr : ℚ) (weeks : Int) (fld : ParamRow → Option ℚ),
      PARAM_FIELD_MAP (seriesNormalize series) = some fld →
      ∀ t : NRBTrigger,
        Trigger.nrb t ∈ get_pattern_triggers "Narrow Range Break" lookback sr weeks series
          eod params →
        t.range_start_time < t.time ∧
        ((∃ r ∈ params, r.trade_date = t.time ∧ ∃ v, fld r = some v ∧ v > t.range_high) ∨
         (∀ r ∈ params, t.time - 6 ≤ r.trade_date → r.trade_date ≤ t.time →
            ∀ v, fld r = some v → ¬ v > t.range_high))) := by
  constructor
  · intro eod params series lookback sr weeks hwf hser t htr
    rw [gpt_price_eq lookback sr weeks series eod params hser] at htr
    split at htr
    · cases htr
    split at htr
    · cases htr
    obtain ⟨u, hu, huv⟩ := List.mem_map.1 htr
    have hut : u = t := by
      cases huv
      rfl
    rw [hut] at hu
    exact causality_price eod (nrWeeksOf weeks) (nrWeeksOf_pos weeks) hwf t hu
  · intro eod params series lookback sr weeks fld hser t htr
    rw [gpt_param_eq lookback sr weeks series eod params hser] at htr
    split at htr
    · cases htr
    split at htr
    · cases htr
    obtain ⟨u, hu, huv⟩ := List.mem_map.1 htr
    have hut : u = t := by
      cases huv
      rfl
    rw [hut] at hu
    have hres := causality_param
      (List.insertionSort pdateLE (params.filter (fun r => (fld r).isSome))) fld
      (nrWeeksOf weeks) (nrWeeksOf_pos weeks) t hu
    refine ⟨hres.1, ?_⟩
    rcases hres.2 with ⟨r, hr, hcond⟩ | hnone
    · have hr' : r ∈ params :=
        (List.mem_filter.1 ((List.perm_insertionSort _ _).mem_iff.1 hr)).1
      exact Or.inl ⟨r, hr', hcond⟩
    · refine Or.inr ?_
      intro r hr h1 h2 v hv
      have hrmem : r ∈ List.insertionSort pdateLE
          (params.filter (fun r => (fld r).isSome)) := by
        rw [(List.perm_insertionSort _ _).mem_iff, List.mem_filter]
        exact ⟨hr, by rw [hv]; rfl⟩
      exact hnone r hrmem h1 h2 v hv

/-- Witness for C4 (amended): the price instance on c4bars (silent
degradation branch) and the indicator instance on c4params via ema21
(successful refinement branch). -/
theorem C4_witness :
    (c4trig.range_start_time < c4trig.time ∧
      ((∃ b ∈ c4bars, b.date = c4trig.time ∧ b.close > c4trig.range_high) ∨
       (∀ b ∈ c4bars, c4trig.time - 6 ≤ b.date → b.date ≤ c4trig.time →
          ¬ b.close > c4trig.range_high))) ∧
    (c4ptrig.range_start_time < c4ptrig.time ∧
      ((∃ r ∈ c4params, r.trade_date = c4ptrig.time ∧
          ∃ v, r.ema21 = some v ∧ v > c4ptrig.range_high) ∨
       (∀ r ∈ c4params, c4ptrig.time - 6 ≤ r.trade_date → r.trade_date ≤ c4ptrig.time →
          ∀ v, r.ema21 = some v → ¬ v > c4ptrig.range_high))) :=
  ⟨C4_amended_breakout_causality.1 c4bars [] none 0 0 1
      (by with_unfolding_all decide) (by with_unfolding_all decide) c4trig
      (by with_unfolding_all decide),
   C4_amended_breakout_causality.2 [] c4params (some "ema21") 0 0 1 (fun r => r.ema21)
      (by with_unfolding_all rfl) c4ptrig (by with_unfolding_all decide)⟩

/- C5 and C10 -/

/-- C5: the claim asserts that a local-minimum candidate is dropped at the
rim-search stage iff one of the clamped sub-windows is empty, with
one-element windows proceeding.  False: the guard drops the candidate
already when left_end <= left_start.  At series length 240 and candidate
i = 20 the clamped left window is [0, 0] (one element, nonempty) and the
right window is [40, 110] (nonempty), yet the candidate is skipped. -/
theorem C5_counterexample :
    bowlRimSkip 240 20 ∧
      (bowlRimBounds 240 20).1.1 ≤ (bowlRimBounds 240 20).1.2 ∧
      (bowlRimBounds 240 20).2.1 ≤ (bowlRimBounds 240 20).2.2 := by
  refine ⟨?_, by decide, by decide⟩
  show (bowlRimBounds 240 20).1.2 ≤ (bowlRimBounds 240 20).1.1 ∨
    (bowlRimBounds 240 20).2.2 ≤ (bowlRimBounds 240 20).2.1
  decide

/-- C5 (amended): a candidate is dropped at the rim-search stage iff one
of the clamped sub-windows [i-90, i-20] or [i+20, i+90] holds at most one
index; when the candidate proceeds, each rim index lies in its clamped
sub-window and its smoothed value is maximal over that sub-window. -/
theorem C5_amended_rim_search :
    ∀ (rows : List BowlRow) (i : Nat),
      (bowlRimSkip rows.length i ↔
        ((bowlRimBounds rows.length i).1.2 - (bowlRimBounds rows.length i).1.1 + 1 ≤ 1 ∨
         (bowlRimBounds rows.length i).2.2 - (bowlRimBounds rows.length i).2.1 + 1 ≤ 1)) ∧
      (¬ bowlRimSkip rows.length i →
        ((bowlRimBounds rows.length i).1.1 ≤ ((bowlRimIdxs rows i).1 : Int) ∧
         ((bowlRimIdxs rows i).1 : Int) ≤ (bowlRimBounds rows.length i).1.2 ∧
         ∀ j : Nat, (bowlRimBounds rows.length i).1.1 ≤ (j : Int) →
           (j : Int) ≤ (bowlRimBounds rows.length i).1.2 →
           (bowlRowAt rows j).ema ≤ (bowlRowAt rows (bowlRimIdxs rows i).1).ema) ∧
        ((bowlRimBounds rows.length i).2.1 ≤ ((bowlRimIdxs rows i).2 : Int) ∧
         ((bowlRimIdxs rows i).2 : Int) ≤ (bowlRimBounds rows.length i).2.2 ∧
         ∀ j : Nat, (bowlRimBounds rows.length i).2.1 ≤ (j : Int) →
           (j : Int) ≤ (bowlRimBounds rows.length i).2.2 →
           (bowlRowAt rows j).ema ≤ (bowlRowAt rows (bowlRimIdxs rows i).2).ema)) := by
  intro rows i
  constructor
  · simp only [bowlRimSkip]
    omega
  · intro h
    have hlt : (bowlRimBounds rows.length i).1.1 < (bowlRimBounds rows.length i).1.2 ∧
        (bowlRimBounds rows.length i).2.1 < (bowlRimBounds rows.length i).2.2 := by
      simp only [bowlRimSkip] at h
      omega
    have hs1 : (0 : Int) ≤ (bowlRimBounds rows.length i).1.1 := le_max_right _ 0
    have hs2 : (0 : Int) ≤ (bowlRimBounds rows.length i).2.1 := le_max_right _ 0
    have hL := argmax_window_spec rows hs1 hlt.1
    have hR := argmax_window_spec rows hs2 hlt.2
    have hiL : (bowlRimIdxs rows i).1 = (bowlRimBounds rows.length i).1.1.toNat +
        firstArgmax ((List.range' (bowlRimBounds rows.length i).1.1.toNat
          ((bowlRimBounds rows.length i).1.2.toNat + 1 -
            (bowlRimBounds rows.length i).1.1.toNat)).map
          (fun j => (bowlRowAt rows j).ema)) := rfl
    have hiR : (bowlRimIdxs rows i).2 = (bowlRimBounds rows.length i).2.1.toNat +
        firstArgmax ((List.range' (bowlRimBounds rows.length i).2.1.toNat
          ((bowlRimBounds rows.length i).2.2.toNat + 1 -
            (bowlRimBounds rows.length i).2.1.toNat)).map
          (fun j => (bowlRowAt rows j).ema)) := rfl
    rw [hiL, hiR]
    exact ⟨⟨hL.1.1, hL.1.2, hL.2.1⟩, ⟨hR.1.1, hR.1.2, hR.2.1⟩⟩

set_option maxRecDepth 100000 in
/-- Witness for C5 (amended) at cexBowlRows, candidate i = 40: the left
rim lies inside the clamped left window [0, 20]. -/
theorem C5_witness :
    (bowlRimBounds cexBowlRows.length 40).1.1 ≤ ((bowlRimIdxs cexBowlRows 40).1 : Int) ∧
      ((bowlRimIdxs cexBowlRows 40).1 : Int) ≤ (bowlRimBounds cexBowlRows.length 40).1.2 := by
  have h := ((C5_amended_rim_search cexBowlRows 40).2 (by with_unfolding_all decide)).1
  exact ⟨h.1, h.2.1⟩

/-- C10: in bowl rim search, when several indices in a rim sub-window
attain the maximal smoothed value, the earliest index wins, on both
sides: every window index strictly below the chosen rim index carries a
strictly smaller smoothed value (together with maximality this pins the
rim to the first argmax, so selection is deterministic). -/
theorem C10_rim_tiebreak :
    ∀ (rows : List BowlRow) (i : Nat), ¬ bowlRimSkip rows.length i →
      (∀ j : Nat, (bowlRimBounds rows.length i).1.1 ≤ (j : Int) →
        j < (bowlRimIdxs rows i).1 →
        (bowlRowAt rows j).ema < (bowlRowAt rows (bowlRimIdxs rows i).1).ema) ∧
      (∀ j : Nat, (bowlRimBounds rows.length i).2.1 ≤ (j : Int) →
        j < (bowlRimIdxs rows i).2 →
        (bowlRowAt rows j).ema < (bowlRowAt rows (bowlRimIdxs rows i).2).ema) := by
  intro rows i h
  have hlt : (bowlRimBounds rows.length i).1.1 < (bowlRimBounds rows.length i).1.2 ∧
      (bowlRimBounds rows.length i).2.1 < (bowlRimBounds rows.length i).2.2 := by
    simp only [bowlRimSkip] at h
    omega
  have hs1 : (0 : Int) ≤ (bowlRimBounds rows.length i).1.1 := le_max_right _ 0
  have hs2 : (0 : Int) ≤ (bowlRimBounds rows.length i).2.1 := le_max_right _ 0
  have hL := argmax_window_spec rows hs1 hlt.1
  have hR := argmax_window_spec rows hs2 hlt.2
  have hiL : (bowlRimIdxs rows i).1 = (bowlRimBounds rows.length i).1.1.toNat +
      firstArgmax ((List.range' (bowlRimBounds rows.length i).1.1.toNat
        ((bowlRimBounds rows.length i).1.2.toNat + 1 -
          (bowlRimBounds rows.length i).1.1.toNat)).map
        (fun j => (bowlRowAt rows j).ema)) := rfl
  have hiR : (bowlRimIdxs rows i).2 = (bowlRimBounds rows.length i).2.1.toNat +
      firstArgmax ((List.range' (bowlRimBounds rows.length i).2.1.toNat
        ((bowlRimBounds rows.length i).2.2.toNat + 1 -
          (bowlRimBounds rows.length i).2.1.toNat)).map
        (fun j => (bowlRowAt rows j).ema)) := rfl
  rw [hiL, hiR]
  exact ⟨hL.2.2, hR.2.2⟩

set_option maxRecDepth 100000 in
/-- Witness for C10 at cexBowlRows, candidate i = 40 and window index
j = 5: the EMA at day 5 (900) is strictly below the EMA at the chosen
left rim, day 10 (1000). -/
theorem C10_witness :
    (bowlRowAt cexBowlRows 5).ema < (bowlRowAt cexBowlRows (bowlRimIdxs cexBowlRows 40).1).ema :=
  (C10_rim_tiebreak cexBowlRows 40 (by with_unfolding_all decide)).1 5
    (by with_unfolding_all decide) (by with_unfolding_all decide)

theorem gpt_param_none_eq (lookback : Int) (sr : ℚ) (weeks : Int) (series : Option String)
    (eod : List DailyBar) (params : List ParamRow)
    (hser : seriesNormalize series ∉ PRICE_SERIES_NAMES)
    (hmap : PARAM_FIELD_MAP (seriesNormalize series) = none) :
    get_pattern_triggers "Narrow Range Break" lookback sr weeks series eod params = [] := by
  simp only [get_pattern_triggers]
  rw [if_pos trivial, if_neg hser, hmap]

/- C6 -/

/-- C6: for every request with pattern Narrow Range Break, on the price
series or a recognized indicator series, if the number of weekly candles
is strictly less than n + 2 (n the effective window size), the result is
the empty list. -/
theorem C6_window_sufficiency :
    (∀ (lookback : Int) (sr : ℚ) (weeks : Int) (series : Option String)
        (eod : List DailyBar) (params : List ParamRow),
      seriesNormalize series ∈ PRICE_SERIES_NAMES →
      (get_weekly_queryset eod).length < nrWeeksOf weeks + 2 →
      get_pattern_triggers "Narrow Range Break" lookback sr weeks series eod params = []) ∧
    (∀ (lookback : Int) (sr : ℚ) (weeks : Int) (series : Option String)
        (eod : List DailyBar) (params : List ParamRow) (fld : ParamRow → Option ℚ),
      PARAM_FIELD_MAP (seriesNormalize series) = some fld →
      (get_weekly_queryset ((List.insertionSort pdateLE
          (params.filter (fun r => (fld r).isSome))).map (paramView fld))).length <
        nrWeeksOf weeks + 2 →
      get_pattern_triggers "Narrow Range Break" lookback sr weeks series eod params = []) := by
  constructor
  · intro lookback sr weeks series eod params hser hlen
    rw [gpt_price_eq lookback sr weeks series eod params hser, if_pos hlen]
  · intro lookback sr weeks series eod params fld hfld hlen
    rw [gpt_param_eq lookback sr weeks series eod params hfld, if_pos hlen]

/-- Witness for C6 on empty inputs, both on the price path and on the
ema21 path. -/
theorem C6_witness :
    get_pattern_triggers "Narrow Range Break" 0 0 4 none [] [] = [] ∧
    get_pattern_triggers "Narrow Range Break" 0 0 4 (some "ema21") [] [] = [] :=
  ⟨C6_window_sufficiency.1 0 0 4 none [] [] (by with_unfolding_all decide)
      (by with_unfolding_all decide),
   C6_window_sufficiency.2 0 0 4 (some "ema21") [] [] (fun r => r.ema21)
      (by with_unfolding_all rfl) (by with_unfolding_all decide)⟩

/- C7 -/

/-- C7: the weekly aggregator groups daily bars by calendar week; its
output is ordered strictly ascending by week; a week has a candle iff it
contains at least one bar (so empty weeks produce no row, and sortedness
makes the candle of a week unique); and every candle carries open = min
of the week group opens, high = max of highs, low = min of lows, close =
max of closes, and date = the maximum daily date of the group, which is
the date of an actual bar of that week. -/
theorem C7_weekly_aggregator :
    ∀ bars : List DailyBar,
      ((get_weekly_queryset bars).map (fun c => c.week)).Sorted (· < ·) ∧
      (∀ w : Int, (∃ b ∈ bars, weekOf b.date = w) ↔
        ∃ c ∈ get_weekly_queryset bars, c.week = w) ∧
      (∀ c ∈ get_weekly_queryset bars,
        bars.filter (fun b => weekOf b.date == c.week) ≠ [] ∧
        c.openPrice = qMin ((bars.filter (fun b => weekOf b.date == c.week)).map
          (fun b => b.openPrice)) ∧
        c.high = qMax ((bars.filter (fun b => weekOf b.date == c.week)).map
          (fun b => b.high)) ∧
        c.low = qMin ((bars.filter (fun b => weekOf b.date == c.week)).map
          (fun b => b.low)) ∧
        c.close = qMax ((bars.filter (fun b => weekOf b.date == c.week)).map
          (fun b => b.close)) ∧
        c.date = iMax ((bars.filter (fun b => weekOf b.date == c.week)).map
          (fun b => b.date)) ∧
        c.date ∈ (bars.filter (fun b => weekOf b.date == c.week)).map (fun b => b.date)) := by
  intro bars
  refine ⟨weekly_week_sorted_lt bars, ?_, ?_⟩
  · intro w
    rw [← mem_weekKeys]
    constructor
    · intro hw
      exact ⟨weekCandle bars w, mem_weekly.2 ⟨w, hw, rfl⟩, rfl⟩
    · rintro ⟨c, hc, hcw⟩
      obtain ⟨w', hw', rfl⟩ := mem_weekly.1 hc
      have hww : w' = w := hcw
      rwa [← hww]
  · intro c hc
    obtain ⟨w, hw, rfl⟩ := mem_weekly.1 hc
    refine ⟨weekGroup_ne_nil hw, rfl, rfl, rfl, rfl, rfl, ?_⟩
    obtain ⟨b, hb, hbw, hd⟩ := weekCandle_date_mem hw
    rw [hd]
    exact List.mem_map_of_mem _ (mem_weekGroup.2 ⟨hb, hbw⟩)

/-- Witness for C7 at the concrete input c4bars. -/
theorem C7_witness :
    ((get_weekly_queryset c4bars).map (fun c => c.week)).Sorted (· < ·) :=
  (C7_weekly_aggregator c4bars).1

/- C8 -/

/-- C8: daily refinement preserves the number and order of triggers and
changes at most the time field of each (stated pointwise via Forall2);
the time is overwritten only to the date of the first daily bar of the
window [weeklyBreakoutDate - 6, weeklyBreakoutDate] whose monitored value
strictly exceeds rangeHigh, and when no window bar exceeds it the trigger
is kept with every field, time included, unchanged.  Stated for both the
price refiner and the Parameter-series refiner, for trigger lists whose
direction is Bullish Break, as the detector emits. -/
theorem C8_refinement_frame :
    (∀ (bars : List DailyBar) (ts : List NRBTrigger),
      (∀ t ∈ ts, t.direction = "Bullish Break") →
      (attach_daily_breakout_times_price bars ts).length = ts.length ∧
      List.Forall₂ (fun t u => sameExceptTime t u ∧
        ((∃ b ∈ bars, inBreakoutWindow t b.date ∧ b.close > t.range_high ∧
            u.time = b.date ∧
            ∀ y ∈ bars, inBreakoutWindow t y.date → y.date < b.date →
              ¬ y.close > t.range_high) ∨
         ((∀ b ∈ bars, inBreakoutWindow t b.date → ¬ b.close > t.range_high) ∧
            u.time = t.time)))
        ts (attach_daily_breakout_times_price bars ts)) ∧
    (∀ (params : List ParamRow) (fld : ParamRow → Option ℚ) (ts : List NRBTrigger),
      (∀ t ∈ ts, t.direction = "Bullish Break") →
      (attach_daily_breakout_times_parameter params fld ts).length = ts.length ∧
      List.Forall₂ (fun t u => sameExceptTime t u ∧
        ((∃ r ∈ params, inBreakoutWindow t r.trade_date ∧
            (∃ v, fld r = some v ∧ v > t.range_high) ∧
            u.time = r.trade_date ∧
            ∀ y ∈ params, inBreakoutWindow t y.trade_date →
              y.trade_date < r.trade_date → ∀ v, fld y = some v → ¬ v > t.range_high) ∨
         ((∀ r ∈ params, inBreakoutWindow t r.trade_date →
            ∀ v, fld r = some v → ¬ v > t.range_high) ∧
            u.time = t.time)))
        ts (attach_daily_breakout_times_parameter params fld ts)) := by
  constructor
  · intro bars ts hdir
    refine ⟨List.length_map ts _, ?_⟩
    unfold attach_daily_breakout_times_price
    rw [List.forall₂_map_right_iff, List.forall₂_same]
    intro t ht
    exact ⟨refine_price_fields bars t, refine_price_time bars t (hdir t ht)⟩
  · intro params fld ts hdir
    refine ⟨List.length_map ts _, ?_⟩
    unfold attach_daily_breakout_times_parameter
    rw [List.forall₂_map_right_iff, List.forall₂_same]
    intro t ht
    exact ⟨refine_param_fields params fld t, refine_param_time params fld t (hdir t ht)⟩

/-- Witness for C8: the price refiner on c4bars and the singleton trigger
list [c4trig] preserves the list length. -/
theorem C8_witness :
    (attach_daily_breakout_times_price c4bars [c4trig]).length = [c4trig].length :=
  (C8_refinement_frame.1 c4bars [c4trig] (by with_unfolding_all decide)).1

/- C9 -/

/-- C9: success_rate has no effect on get_pattern_triggers (two calls
differing only in success_rate return identical lists); moreover every
narrow-range Trigger in the output carries score 0 and every bowl Trigger
carries score 1. -/
theorem C9_success_rate_noop :
    (∀ (pattern : String) (lookback : Int) (sr1 sr2 : ℚ) (weeks : Int)
        (series : Option String) (eod : List DailyBar) (params : List ParamRow),
      get_pattern_triggers pattern lookback sr1 weeks series eod params =
        get_pattern_triggers pattern lookback sr2 weeks series eod params) ∧
    (∀ (lookback : Int) (sr : ℚ) (weeks : Int) (series : Option String)
        (eod : List DailyBar) (params : List ParamRow),
      ∀ tr ∈ get_pattern_triggers "Narrow Range Break" lookback sr weeks series eod params,
        tr.score = 0) ∧
    (∀ (lookback : Int) (sr : ℚ) (weeks : Int) (series : Option String)
        (eod : List DailyBar) (params : List ParamRow),
      ∀ tr ∈ get_pattern_triggers "Bowl" lookback sr weeks series eod params,
        tr.score = 1) := by
  refine ⟨fun _ _ _ _ _ _ _ _ => rfl, ?_, ?_⟩
  · intro lookback sr weeks series eod params tr htr
    by_cases hser : seriesNormalize series ∈ PRICE_SERIES_NAMES
    · rw [gpt_price_eq lookback sr weeks series eod params hser] at htr
      split at htr
      · cases htr
      split at htr
      · cases htr
      obtain ⟨u, hu, rfl⟩ := List.mem_map.1 htr
      unfold attach_daily_breakout_times_price at hu
      obtain ⟨t0, ht0, rfl⟩ := List.mem_map.1 hu
      have hspec := detect_spec (get_weekly_queryset eod) (nrWeeksOf weeks)
        (nrWeeksOf_pos weeks) t0 ht0
      have hscore := hspec.2.2.2.2.2.2.2.2.1
      have hfield := (refine_price_fields eod t0).1
      show (refine_price eod t0).score = 0
      rw [hfield, hscore, weekly_succ_trade_none]
      rfl
    · cases hmap : PARAM_FIELD_MAP (seriesNormalize series) with
      | none =>
        rw [gpt_param_none_eq lookback sr weeks series eod params hser hmap] at htr
        cases htr
      | some fld =>
        rw [gpt_param_eq lookback sr weeks series eod params hmap] at htr
        split at htr
        · cases htr
        split at htr
        · cases htr
        obtain ⟨u, hu, rfl⟩ := List.mem_map.1 htr
        unfold attach_daily_breakout_times_parameter at hu
        obtain ⟨t0, ht0, rfl⟩ := List.mem_map.1 hu
        have hspec := detect_spec
          (get_weekly_queryset ((List.insertionSort pdateLE
            (params.filter (fun r => (fld r).isSome))).map (paramView fld)))
          (nrWeeksOf weeks) (nrWeeksOf_pos weeks) t0 ht0
        have hscore := hspec.2.2.2.2.2.2.2.2.1
        have hfield := (refine_param_fields (List.insertionSort pdateLE
          (params.filter (fun r => (fld r).isSome))) fld t0).1
        show (refine_param _ fld t0).score = 0
        rw [hfield, hscore, weekly_succ_trade_none]
        rfl
  · intro lookback sr weeks series eod params tr htr
    rw [gpt_bowl_eq lookback sr weeks series eod params] at htr
    obtain ⟨m, hm, rfl⟩ := List.mem_map.1 htr
    show m.score = 1
    exact detect_bowl_score _ m hm

set_option maxRecDepth 1000000 in
/-- Witness for C9: the noop equality at two distinct success rates on
the c4bars input, a narrow-range score 0 instance on c4bars, and a bowl
score 1 instance on the two-bowl Parameter series. -/
theorem C9_witness :
    get_pattern_triggers "Narrow Range Break" 0 0 1 none c4bars [] =
      get_pattern_triggers "Narrow Range Break" 0 1 1 none c4bars [] ∧
    (Trigger.nrb c4trig).score = 0 ∧
    (Trigger.bowl { time := 10, score := 1, pattern_id := 1 }).score = 1 :=
  ⟨C9_success_rate_noop.1 "Narrow Range Break" 0 0 1 1 none c4bars [],
   C9_success_rate_noop.2.1 0 0 1 none c4bars [] (Trigger.nrb c4trig)
     (by with_unfolding_all decide),
   C9_success_rate_noop.2.2 0 0 1 none [] cexParams
     (Trigger.bowl { time := 10, score := 1, pattern_id := 1 })
     (by with_unfolding_all decide)⟩
